import Mathlib

/-!
# Verification of the WeCom channel plugin core

Shallow embedding of the repository's stream/conversation store
(`StreamStore` in the monitor state module), the Bot webhook message path
(`handleWecomWebhookRequest`), the envelope codec (`encryptWecomPlaintext` /
`decryptWecomEncrypted` / `pkcs7Pad` / `pkcs7Unpad`), the access-token cache
(`getAccessToken`), the target resolver (`resolveWecomTarget`), and the
UTF-8 byte-truncation helper (`truncateUtf8Bytes`).

Modelling conventions:
* Stream ids are 16 random bytes (hex) in the source; the model draws them
  from a monotone counter `nextId`, which captures exactly the freshness
  property the code relies on (a fresh id differs from every live id).
* Batch keys are the strings `conversationKey` (initial batch) and
  `conversationKey#q<seq>` (queued batches) in the source; the model uses a
  tagged type `BatchKey` with the same two shapes, so that key formation is
  injective (as it is for the conversation keys the handler produces).
* The JS `Map` objects become functions `K → Option V` updated pointwise.
* A JS truthiness test on `msg.msgid` (nonempty string) becomes
  `msgidVal : Option String → Option String`.
* Timers are modelled by a `timerActive` flag plus an explicit timer-fire
  operation (`requestFlush`), since the debounce delay itself carries no
  logical content; flush events are returned as values instead of being
  passed to the registered callback.
-/

namespace Wecom

/-- Pointwise-updatable finite map, mirroring the JS `Map` objects. -/
def MapF (α β : Type) : Type := α → Option β

namespace MapF

/-- `Map.set` / assignment. -/
def set {α β : Type} [DecidableEq α] (m : MapF α β) (k : α) (v : Option β) : MapF α β :=
  fun k' => if k' = k then v else m k'

/-- The empty map. -/
def empty {α β : Type} : MapF α β := fun _ => none

@[simp] theorem set_same {α β : Type} [DecidableEq α] (m : MapF α β) (k : α) (v : Option β) :
    m.set k v k = v := by
  simp [set]

theorem set_other {α β : Type} [DecidableEq α] (m : MapF α β) {k k' : α} (v : Option β)
    (h : k' ≠ k) : m.set k v k' = m k' := by
  simp [set, h]

@[simp] theorem empty_apply {α β : Type} (k : α) : (empty : MapF α β) k = none := rfl

theorem set_eq_some {α β : Type} [DecidableEq α] {m : MapF α β} {k k' : α}
    {v : Option β} {p : β} :
    (m.set k v) k' = some p ↔ (k' = k ∧ v = some p) ∨ (k' ≠ k ∧ m k' = some p) := by
  unfold set
  split <;> simp_all

theorem set_eq_none {α β : Type} [DecidableEq α] {m : MapF α β} {k k' : α}
    {v : Option β} :
    (m.set k v) k' = none ↔ (k' = k ∧ v = none) ∨ (k' ≠ k ∧ m k' = none) := by
  unfold set
  split <;> simp_all

end MapF

/-- Batch keys: the source uses the strings `conversationKey` and
`conversationKey#q<seq>`; the tagged form keeps the same data. -/
inductive BatchKey : Type
  | initial (conversationKey : String)
  | queued (conversationKey : String) (seq : Nat)
deriving DecidableEq, Repr

/-- The conversation key a batch key was built from. -/
def BatchKey.keyOf : BatchKey → String
  | .initial k => k
  | .queued k _ => k

/-- `StreamState` (monitor state module): one per passive-stream slot. -/
structure StreamState : Type where
  streamId : Nat
  msgid : Option String
  conversationKey : Option String
  batchKey : Option BatchKey
  started : Bool
  finished : Bool
  content : String
deriving DecidableEq, Repr

/-- `PendingInbound`: one per batch awaiting its debounce flush. -/
structure Pending : Type where
  streamId : Nat
  conversationKey : String
  batchKey : BatchKey
  contents : List String
  msgids : List String
  readyToFlush : Bool
  timerActive : Bool
deriving DecidableEq, Repr

/-- Per-conversation entry: `{ activeBatchKey, queue, nextSeq }`. -/
structure Conv : Type where
  activeBatchKey : BatchKey
  queue : List BatchKey
  nextSeq : Nat
deriving DecidableEq, Repr

/-- The `StreamStore` state: its five maps plus the fresh-id counter and the
batch-stream → ack-stream registry. -/
structure Store : Type where
  nextId : Nat
  streams : MapF Nat StreamState
  msgidToStreamId : MapF String Nat
  pendingInbounds : MapF BatchKey Pending
  conversationState : MapF String Conv
  streamIdToBatchKey : MapF Nat BatchKey
  ackStreams : MapF Nat (List Nat)

/-- The store a fresh `StreamStore` starts from. -/
def Store.init : Store :=
  { nextId := 0
    streams := MapF.empty
    msgidToStreamId := MapF.empty
    pendingInbounds := MapF.empty
    conversationState := MapF.empty
    streamIdToBatchKey := MapF.empty
    ackStreams := MapF.empty }

/-- JS truthiness of `msg.msgid`: an absent or empty msgid is not used. -/
def msgidVal : Option String → Option String
  | none => none
  | some m => if m = "" then none else some m

/-- `msg.msgid ? [msg.msgid] : []`. -/
def msgidList (msgid : Option String) : List String :=
  match msgidVal msgid with
  | some m => [m]
  | none => []

/-- `StreamStore.createStream`: allocate a fresh stream id, register the
msgid mapping when a (truthy) msgid is given, store the initial
`StreamState`, and record the stream → batch association. -/
def createStream (s : Store) (msgid : Option String)
    (conversationKey : Option String) (batchKey : Option BatchKey) :
    Nat × Store :=
  let id := s.nextId
  let s1 : Store :=
    { s with
      nextId := id + 1
      msgidToStreamId :=
        match msgidVal msgid with
        | some m => s.msgidToStreamId.set m (some id)
        | none => s.msgidToStreamId
      streams := s.streams.set id (some
        { streamId := id
          msgid := msgidVal msgid
          conversationKey := conversationKey
          batchKey := batchKey
          started := false
          finished := false
          content := "" })
      streamIdToBatchKey :=
        match batchKey with
        | some b => s.streamIdToBatchKey.set id (some b)
        | none => s.streamIdToBatchKey }
  (id, s1)

/-- `StreamStore.getStreamByMsgId`. -/
def getStreamByMsgId (s : Store) (msgid : String) : Option Nat :=
  s.msgidToStreamId msgid

/-- `StreamStore.setStreamIdForMsgId` (trims; skips empty key or value — the
model's ids are numeric, so only the key emptiness check remains). -/
def setStreamIdForMsgId (s : Store) (msgid : String) (streamId : Nat) : Store :=
  if msgid = "" then s
  else { s with msgidToStreamId := s.msgidToStreamId.set msgid (some streamId) }

/-- `StreamStore.addAckStreamForBatch`. -/
def addAckStreamForBatch (s : Store) (batchStreamId ackStreamId : Nat) : Store :=
  let list := (s.ackStreams batchStreamId).getD []
  { s with ackStreams := s.ackStreams.set batchStreamId (some (list ++ [ackStreamId])) }

/-- `StreamStore.drainAckStreamsForBatch`. -/
def drainAckStreamsForBatch (s : Store) (batchStreamId : Nat) : List Nat × Store :=
  ((s.ackStreams batchStreamId).getD [],
   { s with ackStreams := s.ackStreams.set batchStreamId none })

/-- `StreamStore.updateStream`: apply a mutator when the stream exists. -/
def updateStream (s : Store) (streamId : Nat) (f : StreamState → StreamState) : Store :=
  match s.streams streamId with
  | some st => { s with streams := s.streams.set streamId (some (f st)) }
  | none => s

/-- `StreamStore.markStarted`. -/
def markStarted (s : Store) (streamId : Nat) : Store :=
  updateStream s streamId (fun st => { st with started := true })

/-- `StreamStore.markFinished`. -/
def markFinished (s : Store) (streamId : Nat) : Store :=
  updateStream s streamId (fun st => { st with finished := true })

/-- Admission status returned by `addPendingMessage`. -/
inductive AddStatus : Type
  | active_new | active_merged | queued_new | queued_merged
deriving DecidableEq, Repr

/-- Result of `addPendingMessage`: the returned stream id and status plus the
updated store. -/
structure AddResult : Type where
  streamId : Nat
  status : AddStatus
  store : Store

/-- Merge one message into an existing pending batch: append the content and
the (truthy) msgid, and reset the debounce timer. The msgid is *not* mapped
to the batch's stream id. -/
def mergePending (p : Pending) (msgid : Option String) (msgContent : String) : Pending :=
  { p with
    contents := p.contents ++ [msgContent]
    msgids := p.msgids ++ msgidList msgid
    timerActive := true }

/-- The `addPendingMessage` result for the two merge branches: only the
pending entry changes, and the returned id is the batch's existing stream id. -/
def mergedResult (s : Store) (bk : BatchKey) (p : Pending) (status : AddStatus)
    (msgid : Option String) (msgContent : String) : AddResult :=
  { streamId := p.streamId
    status := status
    store := { s with pendingInbounds :=
      s.pendingInbounds.set bk (some (mergePending p msgid msgContent)) } }

/-- The pending entry built for a freshly created batch. -/
def newPending (sid : Nat) (conversationKey : String) (batchKey : BatchKey)
    (msgid : Option String) (msgContent : String) : Pending :=
  { streamId := sid
    conversationKey := conversationKey
    batchKey := batchKey
    contents := [msgContent]
    msgids := msgidList msgid
    readyToFlush := false
    timerActive := true }

/-- First branch of `addPendingMessage`: no conversation entry — create the
initial active batch (whose batch key *is* the conversation key), allocate
its stream, and register the conversation entry. -/
def addInitial (s : Store) (conversationKey : String)
    (msgid : Option String) (msgContent : String) : AddResult :=
  let batchKey := BatchKey.initial conversationKey
  let r := createStream s msgid (some conversationKey) (some batchKey)
  { streamId := r.1
    status := .active_new
    store :=
      { r.2 with
        pendingInbounds := r.2.pendingInbounds.set batchKey
          (some (newPending r.1 conversationKey batchKey msgid msgContent))
        conversationState := r.2.conversationState.set conversationKey
          (some { activeBatchKey := batchKey, queue := [], nextSeq := 1 }) } }

/-- Last branch of `addPendingMessage`: create a fresh queued batch
`<conversationKey>#q<nextSeq>`, keep it as the sole queue entry, and bump
`nextSeq`. -/
def addQueuedNew (s : Store) (conversationKey : String) (st : Conv)
    (msgid : Option String) (msgContent : String) : AddResult :=
  let seq := st.nextSeq
  let batchKey := BatchKey.queued conversationKey seq
  let st' : Conv :=
    { activeBatchKey := st.activeBatchKey
      queue := [batchKey]
      nextSeq := seq + 1 }
  let r := createStream s msgid (some conversationKey) (some batchKey)
  { streamId := r.1
    status := .queued_new
    store :=
      { r.2 with
        pendingInbounds := r.2.pendingInbounds.set batchKey
          (some (newPending r.1 conversationKey batchKey msgid msgContent))
        conversationState := r.2.conversationState.set conversationKey (some st') } }

/-- `StreamStore.addPendingMessage` — the admission / debounce-merge logic,
translated branch for branch:
* no conversation entry → create the initial active batch (`active_new`);
* active batch present, not the initial batch, and its stream not yet
  started → merge into the active pending (`active_merged`), without mapping
  the msgid;
* a queued batch with a live pending → merge into it (`queued_merged`),
  without mapping the msgid;
* otherwise → create a fresh queued batch `<conversationKey>#q<nextSeq>`
  (`queued_new`). -/
def addPendingMessage (s : Store) (conversationKey : String)
    (msgid : Option String) (msgContent : String) : AddResult :=
  match s.conversationState conversationKey with
  | none => addInitial s conversationKey msgid msgContent
  | some st =>
    let activeBatchKey := st.activeBatchKey
    let tryActive : Option AddResult :=
      match s.pendingInbounds activeBatchKey with
      | some ap =>
        if activeBatchKey = BatchKey.initial conversationKey then none
        else
          let activeStarted :=
            match s.streams ap.streamId with
            | some ss => ss.started
            | none => false
          if activeStarted then none
          else
            some (mergedResult s activeBatchKey ap .active_merged msgid msgContent)
      | none => none
    match tryActive with
    | some r => r
    | none =>
      let tryQueued : Option AddResult :=
        match st.queue.head? with
        | some q =>
          match s.pendingInbounds q with
          | some ex => some (mergedResult s q ex .queued_merged msgid msgContent)
          | none => none
        | none => none
      match tryQueued with
      | some r => r
      | none => addQueuedNew s conversationKey st msgid msgContent

/-- `StreamStore.flushPending`: one-shot — remove the pending entry, clear its
timer and ready flag, and hand it to the flush handler (returned here as the
second component). -/
def flushPending (s : Store) (batchKey : BatchKey) : Store × Option Pending :=
  match s.pendingInbounds batchKey with
  | none => (s, none)
  | some p =>
    let p' : Pending := { p with timerActive := false, readyToFlush := false }
    ({ s with pendingInbounds := s.pendingInbounds.set batchKey none }, some p')

/-- `StreamStore.requestFlush` (the debounce timer firing): flush immediately
when the batch is the active batch of its conversation, otherwise mark it
`readyToFlush` and wait for promotion. -/
def requestFlush (s : Store) (batchKey : BatchKey) : Store × Option Pending :=
  match s.pendingInbounds batchKey with
  | none => (s, none)
  | some p =>
    let isActive : Bool :=
      match s.conversationState p.conversationKey with
      | some st => st.activeBatchKey == batchKey
      | none => false
    if isActive then flushPending s batchKey
    else
      let p' : Pending := { p with timerActive := false, readyToFlush := true }
      ({ s with pendingInbounds := s.pendingInbounds.set batchKey (some p') }, none)

/-- `StreamStore.onStreamFinished`: when the finished stream owns the current
active batch, pop the queue — delete the conversation entry when the queue is
empty, otherwise promote the queued batch and flush it when it is already
`readyToFlush`. -/
def onStreamFinished (s : Store) (streamId : Nat) : Store × Option Pending :=
  match s.streamIdToBatchKey streamId with
  | none => (s, none)
  | some batchKey =>
    match s.streams streamId with
    | none => (s, none)
    | some ss =>
      match ss.conversationKey with
      | none => (s, none)
      | some conversationKey =>
        match s.conversationState conversationKey with
        | none => (s, none)
        | some conv =>
          if conv.activeBatchKey = batchKey then
            match conv.queue with
            | [] =>
              ({ s with conversationState := s.conversationState.set conversationKey none }, none)
            | next :: rest =>
              let conv' : Conv :=
                { activeBatchKey := next, queue := rest, nextSeq := conv.nextSeq }
              let s1 : Store :=
                { s with conversationState := s.conversationState.set conversationKey (some conv') }
              match s1.pendingInbounds next with
              | none => (s1, none)
              | some p =>
                if p.readyToFlush then flushPending s1 next
                else (s1, none)
          else (s, none)

/-- The store operations C1–C5 range over: message admission, a debounce
timer firing, a stream finishing, and a stream being marked started. -/
inductive Op : Type
  | add (conversationKey : String) (msgid : Option String) (msgContent : String)
  | fire (batchKey : BatchKey)
  | finish (streamId : Nat)
  | start (streamId : Nat)

/-- Apply one operation (flush events are discarded for invariant purposes). -/
def applyOp (s : Store) : Op → Store
  | .add k msgid content => (addPendingMessage s k msgid content).store
  | .fire bk => (requestFlush s bk).1
  | .finish sid => (onStreamFinished s sid).1
  | .start sid => markStarted s sid

/-- Run a sequence of operations from the initial store. -/
def run (ops : List Op) : Store :=
  ops.foldl applyOp Store.init

/-!
## Store well-formedness

The structural facts any reachable store satisfies.  They are exactly what
the per-claim theorems need: queue length ≤ 1, consistent key shapes,
sequence-number freshness, live pendings behind every queued batch key,
fresh (hence distinct) stream ids, and the fact that whenever a queued batch
exists, a further message can never merge into the active batch.
-/

/-- Well-formedness of a `Store`. -/
structure WF (s : Store) : Prop where
  queueLen : ∀ k st, s.conversationState k = some st → st.queue.length ≤ 1
  activeShape : ∀ k st, s.conversationState k = some st → st.activeBatchKey.keyOf = k
  queueShape : ∀ k st q, s.conversationState k = some st → q ∈ st.queue →
    ∃ n, q = BatchKey.queued k n
  activeSeq : ∀ k st n, s.conversationState k = some st →
    st.activeBatchKey = BatchKey.queued k n → n < st.nextSeq
  queueSeq : ∀ k st n, s.conversationState k = some st →
    BatchKey.queued k n ∈ st.queue → n < st.nextSeq
  activeNotQueued : ∀ k st, s.conversationState k = some st →
    st.activeBatchKey ∉ st.queue
  queuePend : ∀ k st q, s.conversationState k = some st → q ∈ st.queue →
    ∃ p, s.pendingInbounds q = some p
  pendShape : ∀ b p, s.pendingInbounds b = some p →
    p.batchKey = b ∧ p.conversationKey = b.keyOf
  pendId : ∀ b p, s.pendingInbounds b = some p → p.streamId < s.nextId
  pendDistinct : ∀ b b' p p', s.pendingInbounds b = some p →
    s.pendingInbounds b' = some p' → b ≠ b' → p.streamId ≠ p'.streamId
  streamsId : ∀ i ss, s.streams i = some ss → i < s.nextId
  msgidId : ∀ m i, s.msgidToStreamId m = some i → i < s.nextId
  sibId : ∀ i b, s.streamIdToBatchKey i = some b → i < s.nextId
  mergeBlock : ∀ k st, s.conversationState k = some st → st.queue ≠ [] →
    st.activeBatchKey = BatchKey.initial k ∨
    s.pendingInbounds st.activeBatchKey = none ∨
    ∃ p ss, s.pendingInbounds st.activeBatchKey = some p ∧
      s.streams p.streamId = some ss ∧ ss.started = true

theorem wf_init : WF Store.init := by
  constructor <;> intros <;> simp_all [Store.init]

/-- Replacing a pending entry (same stream id, batch key, conversation key)
preserves well-formedness. -/
theorem wf_update_pending {s : Store} (h : WF s) {bk : BatchKey} {p p' : Pending}
    (hp : s.pendingInbounds bk = some p)
    (hid : p'.streamId = p.streamId) (hbk : p'.batchKey = p.batchKey)
    (hck : p'.conversationKey = p.conversationKey) :
    WF { s with pendingInbounds := s.pendingInbounds.set bk (some p') } := by
  have hlook : ∀ b q, (s.pendingInbounds.set bk (some p')) b = some q →
      (b = bk ∧ q = p') ∨ (b ≠ bk ∧ s.pendingInbounds b = some q) := by
    intro b q hq
    rcases MapF.set_eq_some.mp hq with ⟨he, hv⟩ | ⟨hne, hv⟩
    · exact Or.inl ⟨he, by injection hv.symm⟩
    · exact Or.inr ⟨hne, hv⟩
  refine ⟨h.queueLen, h.activeShape, h.queueShape, h.activeSeq, h.queueSeq,
    h.activeNotQueued, ?_, ?_, ?_, ?_, h.streamsId, h.msgidId, h.sibId, ?_⟩
  · intro k st q hst hq
    dsimp only at hst ⊢
    rcases h.queuePend k st q hst hq with ⟨r, hr⟩
    by_cases hqe : q = bk
    · exact ⟨p', by simp [hqe]⟩
    · exact ⟨r, by rwa [MapF.set_other _ _ hqe]⟩
  · intro b q hq
    dsimp only at hq
    rcases hlook b q hq with ⟨he, hv⟩ | ⟨_, hv⟩
    · rcases h.pendShape bk p hp with ⟨h1, h2⟩
      rw [hv, he]
      exact ⟨hbk.trans h1, hck.trans h2⟩
    · exact h.pendShape b q hv
  · intro b q hq
    dsimp only at hq ⊢
    rcases hlook b q hq with ⟨_, hv⟩ | ⟨_, hv⟩
    · rw [hv, hid]
      exact h.pendId bk p hp
    · exact h.pendId b q hv
  · intro b b' q q' hq hq' hne
    dsimp only at hq hq'
    rcases hlook b q hq with ⟨he, hv⟩ | ⟨hb, hv⟩ <;>
      rcases hlook b' q' hq' with ⟨he', hv'⟩ | ⟨hb', hv'⟩
    · exact absurd (he.trans he'.symm) hne
    · rw [hv, hid]
      exact h.pendDistinct bk b' p q' hp hv' (Ne.symm hb')
    · rw [hv', hid]
      exact h.pendDistinct b bk q p hv hp hb
    · exact h.pendDistinct b b' q q' hv hv' hne
  · intro k st hst hne
    dsimp only at hst ⊢
    rcases h.mergeBlock k st hst hne with h1 | h2 | ⟨q, ss, hq, hss, hstart⟩
    · exact Or.inl h1
    · refine Or.inr (Or.inl ?_)
      have hd : st.activeBatchKey ≠ bk := fun he => by rw [he, hp] at h2; exact Option.noConfusion h2
      rwa [MapF.set_other _ _ hd]
    · by_cases he : st.activeBatchKey = bk
      · refine Or.inr (Or.inr ⟨p', ss, by simp [he], ?_, hstart⟩)
        rw [he, hp] at hq
        injection hq with hq
        rw [hid, hq]
        exact hss
      · exact Or.inr (Or.inr ⟨q, ss, by rwa [MapF.set_other _ _ he], hss, hstart⟩)

/-- Deleting a pending entry that sits in no conversation queue preserves
well-formedness. -/
theorem wf_delete_pending {s : Store} (h : WF s) {bk : BatchKey}
    (hq : ∀ k st, s.conversationState k = some st → bk ∉ st.queue) :
    WF { s with pendingInbounds := s.pendingInbounds.set bk none } := by
  have hlook : ∀ b q, (s.pendingInbounds.set bk none) b = some q →
      b ≠ bk ∧ s.pendingInbounds b = some q := by
    intro b q hqv
    rcases MapF.set_eq_some.mp hqv with ⟨_, hv⟩ | ⟨hne, hv⟩
    · exact Option.noConfusion hv
    · exact ⟨hne, hv⟩
  refine ⟨h.queueLen, h.activeShape, h.queueShape, h.activeSeq, h.queueSeq,
    h.activeNotQueued, ?_, ?_, ?_, ?_, h.streamsId, h.msgidId, h.sibId, ?_⟩
  · intro k st q hst hmem
    dsimp only at hst ⊢
    rcases h.queuePend k st q hst hmem with ⟨r, hr⟩
    have hd : q ≠ bk := fun he => hq k st hst (he ▸ hmem)
    exact ⟨r, by rwa [MapF.set_other _ _ hd]⟩
  · intro b q hqv
    dsimp only at hqv
    exact h.pendShape b q (hlook b q hqv).2
  · intro b q hqv
    dsimp only at hqv ⊢
    exact h.pendId b q (hlook b q hqv).2
  · intro b b' q q' hqv hqv' hne
    dsimp only at hqv hqv'
    exact h.pendDistinct b b' q q' (hlook b q hqv).2 (hlook b' q' hqv').2 hne
  · intro k st hst hne
    dsimp only at hst ⊢
    rcases h.mergeBlock k st hst hne with h1 | h2 | ⟨q, ss, hqv, hss, hstart⟩
    · exact Or.inl h1
    · refine Or.inr (Or.inl ?_)
      by_cases he : st.activeBatchKey = bk
      · simp [he]
      · rwa [MapF.set_other _ _ he]
    · by_cases he : st.activeBatchKey = bk
      · exact Or.inr (Or.inl (by simp [he]))
      · exact Or.inr (Or.inr ⟨q, ss, by rwa [MapF.set_other _ _ he], hss, hstart⟩)

/-- Deleting a conversation entry preserves well-formedness. -/
theorem wf_delete_conv {s : Store} (h : WF s) (ck : String) :
    WF { s with conversationState := s.conversationState.set ck none } := by
  have hlook : ∀ k st, (s.conversationState.set ck none) k = some st →
      s.conversationState k = some st := by
    intro k st hst
    rcases MapF.set_eq_some.mp hst with ⟨_, hv⟩ | ⟨_, hv⟩
    · exact Option.noConfusion hv
    · exact hv
  refine ⟨?_, ?_, ?_, ?_, ?_, ?_, ?_, h.pendShape, h.pendId, h.pendDistinct,
    h.streamsId, h.msgidId, h.sibId, ?_⟩
  · intro k st hst
    exact h.queueLen k st (hlook k st hst)
  · intro k st hst
    exact h.activeShape k st (hlook k st hst)
  · intro k st q hst
    exact h.queueShape k st q (hlook k st hst)
  · intro k st n hst
    exact h.activeSeq k st n (hlook k st hst)
  · intro k st n hst
    exact h.queueSeq k st n (hlook k st hst)
  · intro k st hst
    exact h.activeNotQueued k st (hlook k st hst)
  · intro k st q hst
    exact h.queuePend k st q (hlook k st hst)
  · intro k st hst
    exact h.mergeBlock k st (hlook k st hst)

/-- Marking a stream started preserves well-formedness. -/
theorem wf_markStarted {s : Store} (h : WF s) (sid : Nat) :
    WF (markStarted s sid) := by
  unfold markStarted updateStream
  split
  · next st hss =>
    refine ⟨h.queueLen, h.activeShape, h.queueShape, h.activeSeq, h.queueSeq,
      h.activeNotQueued, h.queuePend, h.pendShape, h.pendId, h.pendDistinct,
      ?_, h.msgidId, h.sibId, ?_⟩
    · intro i ss hq
      dsimp only at hq ⊢
      rcases MapF.set_eq_some.mp hq with ⟨he, _⟩ | ⟨_, hv⟩
      · rw [he]
        exact h.streamsId sid st hss
      · exact h.streamsId i ss hv
    · intro k st' hst hne
      dsimp only at hst ⊢
      rcases h.mergeBlock k st' hst hne with h1 | h2 | ⟨p, ss, hp, hss2, hstart⟩
      · exact Or.inl h1
      · exact Or.inr (Or.inl h2)
      · by_cases he : p.streamId = sid
        · exact Or.inr (Or.inr ⟨p, { st with started := true }, hp, by simp [he], rfl⟩)
        · exact Or.inr (Or.inr ⟨p, ss, hp, by rwa [MapF.set_other _ _ he], hstart⟩)
  · exact h

/-- A batch key that is the active batch of its conversation sits in no queue. -/
theorem active_not_in_any_queue {s : Store} (h : WF s) {bk : BatchKey} {cst : Conv}
    (hcst : s.conversationState bk.keyOf = some cst) (hact : cst.activeBatchKey = bk) :
    ∀ k st, s.conversationState k = some st → bk ∉ st.queue := by
  intro k st hst hmem
  rcases h.queueShape k st bk hst hmem with ⟨n, hn⟩
  have hk : bk.keyOf = k := by rw [hn]; rfl
  rw [hk, hst] at hcst
  injection hcst with hcst
  have hb : st.activeBatchKey = bk := by rw [hcst]; exact hact
  apply h.activeNotQueued k st hst
  rw [hb]
  exact hmem

/-- The debounce-timer event (`requestFlush`) preserves well-formedness. -/
theorem wf_requestFlush {s : Store} (h : WF s) (bk : BatchKey) :
    WF (requestFlush s bk).1 := by
  unfold requestFlush
  split
  · next hp => exact h
  · next p hp =>
    dsimp only
    split
    · next hact =>
      unfold flushPending
      rw [hp]
      dsimp only
      apply wf_delete_pending h
      revert hact
      split
      · next cst hcst =>
        intro hact
        have hcst' : s.conversationState bk.keyOf = some cst := by
          rwa [(h.pendShape bk p hp).2] at hcst
        exact active_not_in_any_queue h hcst' (by simpa using hact)
      · intro hact
        exact absurd hact (by simp)
    · next hact =>
      exact wf_update_pending h hp rfl rfl rfl

/-- `onStreamFinished` preserves well-formedness. -/
theorem wf_onStreamFinished {s : Store} (h : WF s) (sid : Nat) :
    WF (onStreamFinished s sid).1 := by
  unfold onStreamFinished
  split
  · exact h
  · next bk hbk =>
    split
    · exact h
    · next ss hss =>
      split
      · exact h
      · next ck hck =>
        split
        · exact h
        · next conv hconv =>
          split
          · next hact =>
            split
            · next hqe =>
              exact wf_delete_conv h ck
            · next next rest hqe =>
              have hrest : rest = [] := by
                have hlen := h.queueLen ck conv hconv
                rw [hqe] at hlen
                cases rest with
                | nil => rfl
                | cons a t => simp at hlen
              subst hrest
              have hmem : next ∈ conv.queue := by rw [hqe]; exact List.mem_cons_self _ _
              rcases h.queueShape ck conv next hconv hmem with ⟨n, hn⟩
              have hwf1 : WF { s with conversationState :=
                  s.conversationState.set ck (some ⟨next, [], conv.nextSeq⟩) } := by
                have hlook : ∀ k st, (s.conversationState.set ck
                    (some ⟨next, [], conv.nextSeq⟩)) k = some st →
                    (k = ck ∧ st = (⟨next, [], conv.nextSeq⟩ : Conv)) ∨
                    (k ≠ ck ∧ s.conversationState k = some st) := by
                  intro k st hst
                  rcases MapF.set_eq_some.mp hst with ⟨he, hv⟩ | ⟨hne, hv⟩
                  · exact Or.inl ⟨he, by injection hv.symm⟩
                  · exact Or.inr ⟨hne, hv⟩
                refine ⟨?_, ?_, ?_, ?_, ?_, ?_, ?_, h.pendShape, h.pendId, h.pendDistinct,
                  h.streamsId, h.msgidId, h.sibId, ?_⟩
                · intro k st hst
                  rcases hlook k st hst with ⟨_, hv⟩ | ⟨_, hv⟩
                  · rw [hv]; simp
                  · exact h.queueLen k st hv
                · intro k st hst
                  rcases hlook k st hst with ⟨he, hv⟩ | ⟨_, hv⟩
                  · rw [hv, he]
                    show next.keyOf = ck
                    rw [hn]
                    rfl
                  · exact h.activeShape k st hv
                · intro k st q hst hq
                  rcases hlook k st hst with ⟨_, hv⟩ | ⟨_, hv⟩
                  · rw [hv] at hq; simp at hq
                  · exact h.queueShape k st q hv hq
                · intro k st m hst hqk
                  rcases hlook k st hst with ⟨he, hv⟩ | ⟨_, hv⟩
                  · subst he
                    rw [hv] at hqk ⊢
                    have hq2 : next = BatchKey.queued k m := hqk
                    rw [hn] at hq2
                    injection hq2 with h1 h2
                    subst h2
                    show n < conv.nextSeq
                    exact h.queueSeq k conv n hconv (hn ▸ hmem)
                  · exact h.activeSeq k st m hv hqk
                · intro k st m hst hqk
                  rcases hlook k st hst with ⟨_, hv⟩ | ⟨_, hv⟩
                  · rw [hv] at hqk; simp at hqk
                  · exact h.queueSeq k st m hv hqk
                · intro k st hst
                  rcases hlook k st hst with ⟨_, hv⟩ | ⟨_, hv⟩
                  · rw [hv]; simp
                  · exact h.activeNotQueued k st hv
                · intro k st q hst hq
                  rcases hlook k st hst with ⟨_, hv⟩ | ⟨_, hv⟩
                  · rw [hv] at hq; simp at hq
                  · exact h.queuePend k st q hv hq
                · intro k st hst hne
                  rcases hlook k st hst with ⟨_, hv⟩ | ⟨_, hv⟩
                  · rw [hv] at hne; simp at hne
                  · exact h.mergeBlock k st hv hne
              dsimp only
              split
              · exact hwf1
              · next p hp =>
                split
                · unfold flushPending
                  split
                  · exact hwf1
                  · dsimp only
                    apply wf_delete_pending hwf1
                    intro k st hst hmem2
                    dsimp only at hst
                    rcases MapF.set_eq_some.mp hst with ⟨_, hv⟩ | ⟨hne, hv⟩
                    · have hv' : st = (⟨next, [], conv.nextSeq⟩ : Conv) := by injection hv.symm
                      rw [hv'] at hmem2
                      simp at hmem2
                    · rcases h.queueShape k st next hv hmem2 with ⟨m, hm⟩
                      have hkc : k = ck := by
                        have he2 : BatchKey.queued k m = BatchKey.queued ck n := by
                          rw [← hm, hn]
                        injection he2 with h1 h2
                      exact hne hkc
                · exact hwf1
          · exact h

/-- Creating the initial batch of a conversation preserves well-formedness. -/
theorem wf_addInitial {s : Store} (h : WF s) (k : String)
    (msgid : Option String) (content : String) :
    WF (addInitial s k msgid content).store := by
  unfold addInitial createStream
  dsimp only
  have hkeyOf : (BatchKey.initial k).keyOf = k := rfl
  have hclook : ∀ k' st, (s.conversationState.set k
      (some ⟨BatchKey.initial k, [], 1⟩)) k' = some st →
      (k' = k ∧ st = (⟨BatchKey.initial k, [], 1⟩ : Conv)) ∨
      (k' ≠ k ∧ s.conversationState k' = some st) := by
    intro k' st hst
    rcases MapF.set_eq_some.mp hst with ⟨he, hv⟩ | ⟨hne, hv⟩
    · exact Or.inl ⟨he, by injection hv.symm⟩
    · exact Or.inr ⟨hne, hv⟩
  refine ⟨?_, ?_, ?_, ?_, ?_, ?_, ?_, ?_, ?_, ?_, ?_, ?_, ?_, ?_⟩
  · intro k' st hst
    rcases hclook k' st hst with ⟨_, hv⟩ | ⟨_, hv⟩
    · rw [hv]; simp
    · exact h.queueLen k' st hv
  · intro k' st hst
    rcases hclook k' st hst with ⟨he, hv⟩ | ⟨_, hv⟩
    · rw [hv, he]; rfl
    · exact h.activeShape k' st hv
  · intro k' st q hst hq
    rcases hclook k' st hst with ⟨_, hv⟩ | ⟨_, hv⟩
    · rw [hv] at hq; simp at hq
    · exact h.queueShape k' st q hv hq
  · intro k' st n hst hqk
    rcases hclook k' st hst with ⟨_, hv⟩ | ⟨_, hv⟩
    · rw [hv] at hqk
      exact absurd hqk (by simp)
    · exact h.activeSeq k' st n hv hqk
  · intro k' st n hst hqk
    rcases hclook k' st hst with ⟨_, hv⟩ | ⟨_, hv⟩
    · rw [hv] at hqk; simp at hqk
    · exact h.queueSeq k' st n hv hqk
  · intro k' st hst
    rcases hclook k' st hst with ⟨_, hv⟩ | ⟨_, hv⟩
    · rw [hv]; simp
    · exact h.activeNotQueued k' st hv
  · intro k' st q hst hq
    rcases hclook k' st hst with ⟨_, hv⟩ | ⟨_, hv⟩
    · rw [hv] at hq; simp at hq
    · rcases h.queuePend k' st q hv hq with ⟨p, hp⟩
      rcases h.queueShape k' st q hv hq with ⟨n, hn⟩
      have hnq : q ≠ BatchKey.initial k := by rw [hn]; intro hx; exact BatchKey.noConfusion hx
      refine ⟨p, ?_⟩
      dsimp only
      rw [MapF.set_other _ _ hnq]
      exact hp
  · intro b p hp
    dsimp only at hp
    rcases MapF.set_eq_some.mp hp with ⟨he, hv⟩ | ⟨hne, hv⟩
    · have hv' : newPending s.nextId k (BatchKey.initial k) msgid content = p := by
        injection hv
      rw [he, ← hv']
      exact ⟨rfl, rfl⟩
    · exact h.pendShape b p hv
  · intro b p hp
    dsimp only at hp ⊢
    rcases MapF.set_eq_some.mp hp with ⟨_, hv⟩ | ⟨_, hv⟩
    · have hv' : newPending s.nextId k (BatchKey.initial k) msgid content = p := by
        injection hv
      rw [← hv']
      exact Nat.lt_succ_self _
    · exact Nat.lt_succ_of_lt (h.pendId b p hv)
  · intro b b' p p' hp hp' hne
    dsimp only at hp hp'
    rcases MapF.set_eq_some.mp hp with ⟨he, hv⟩ | ⟨hb, hv⟩ <;>
      rcases MapF.set_eq_some.mp hp' with ⟨he', hv'⟩ | ⟨hb', hv'⟩
    · exact absurd (he.trans he'.symm) hne
    · have hv2 : newPending s.nextId k (BatchKey.initial k) msgid content = p := by
        injection hv
      have hlt := h.pendId b' p' hv'
      rw [← hv2]
      show s.nextId ≠ p'.streamId
      omega
    · have hv2 : newPending s.nextId k (BatchKey.initial k) msgid content = p' := by
        injection hv'
      have hlt := h.pendId b p hv
      rw [← hv2]
      show p.streamId ≠ s.nextId
      omega
    · exact h.pendDistinct b b' p p' hv hv' hne
  · intro i ss hss
    dsimp only at hss ⊢
    rcases MapF.set_eq_some.mp hss with ⟨he, _⟩ | ⟨_, hv⟩
    · rw [he]; exact Nat.lt_succ_self _
    · exact Nat.lt_succ_of_lt (h.streamsId i ss hv)
  · intro m i hm
    dsimp only at hm ⊢
    rcases hmv : msgidVal msgid with _ | mm <;> rw [hmv] at hm
    · exact Nat.lt_succ_of_lt (h.msgidId m i hm)
    · rcases MapF.set_eq_some.mp hm with ⟨_, hv⟩ | ⟨_, hv⟩
      · injection hv with hv
        rw [← hv]
        exact Nat.lt_succ_self _
      · exact Nat.lt_succ_of_lt (h.msgidId m i hv)
  · intro i b hb
    dsimp only at hb ⊢
    rcases MapF.set_eq_some.mp hb with ⟨he, _⟩ | ⟨_, hv⟩
    · rw [he]; exact Nat.lt_succ_self _
    · exact Nat.lt_succ_of_lt (h.sibId i b hv)
  · intro k' st hst hne
    rcases hclook k' st hst with ⟨_, hv⟩ | ⟨hke, hv⟩
    · rw [hv] at hne; simp at hne
    · rcases h.mergeBlock k' st hv hne with h1 | h2 | ⟨p, ss, hp, hss, hstart⟩
      · exact Or.inl h1
      · refine Or.inr (Or.inl ?_)
        have hna : st.activeBatchKey ≠ BatchKey.initial k := by
          intro hx
          have := h.activeShape k' st hv
          rw [hx] at this
          exact hke this.symm
        show (s.pendingInbounds.set (BatchKey.initial k) _) st.activeBatchKey = none
        rw [MapF.set_other _ _ hna]
        exact h2
      · refine Or.inr (Or.inr ?_)
        have hna : st.activeBatchKey ≠ BatchKey.initial k := by
          intro hx
          have := h.activeShape k' st hv
          rw [hx] at this
          exact hke this.symm
        have hid : p.streamId ≠ s.nextId := Nat.ne_of_lt (h.pendId _ p hp)
        refine ⟨p, ss, ?_, ?_, hstart⟩
        · show (s.pendingInbounds.set (BatchKey.initial k) _) st.activeBatchKey = some p
          rw [MapF.set_other _ _ hna]
          exact hp
        · show (s.streams.set s.nextId _) p.streamId = some ss
          rw [MapF.set_other _ _ hid]
          exact hss

/-- Creating a fresh queued batch preserves well-formedness, provided the
merge-into-active branch could not fire (the fall-through condition of
`addPendingMessage`). -/
theorem wf_addQueuedNew {s : Store} (h : WF s) {k : String} {st : Conv}
    (hconv : s.conversationState k = some st)
    (hblock : st.activeBatchKey = BatchKey.initial k ∨
      s.pendingInbounds st.activeBatchKey = none ∨
      ∃ p ss, s.pendingInbounds st.activeBatchKey = some p ∧
        s.streams p.streamId = some ss ∧ ss.started = true)
    (msgid : Option String) (content : String) :
    WF (addQueuedNew s k st msgid content).store := by
  have hactShape := h.activeShape k st hconv
  have hactNe : st.activeBatchKey ≠ BatchKey.queued k st.nextSeq := by
    intro hx
    have := h.activeSeq k st st.nextSeq hconv hx
    omega
  unfold addQueuedNew createStream
  dsimp only
  have hclook : ∀ k' cst, (s.conversationState.set k
      (some ⟨st.activeBatchKey, [BatchKey.queued k st.nextSeq], st.nextSeq + 1⟩)) k' = some cst →
      (k' = k ∧ cst = (⟨st.activeBatchKey, [BatchKey.queued k st.nextSeq], st.nextSeq + 1⟩ : Conv)) ∨
      (k' ≠ k ∧ s.conversationState k' = some cst) := by
    intro k' cst hst
    rcases MapF.set_eq_some.mp hst with ⟨he, hv⟩ | ⟨hne, hv⟩
    · exact Or.inl ⟨he, by injection hv.symm⟩
    · exact Or.inr ⟨hne, hv⟩
  refine ⟨?_, ?_, ?_, ?_, ?_, ?_, ?_, ?_, ?_, ?_, ?_, ?_, ?_, ?_⟩
  · intro k' cst hst
    rcases hclook k' cst hst with ⟨_, hv⟩ | ⟨_, hv⟩
    · rw [hv]; simp
    · exact h.queueLen k' cst hv
  · intro k' cst hst
    rcases hclook k' cst hst with ⟨he, hv⟩ | ⟨_, hv⟩
    · rw [hv, he]
      exact hactShape
    · exact h.activeShape k' cst hv
  · intro k' cst q hst hq
    rcases hclook k' cst hst with ⟨he, hv⟩ | ⟨_, hv⟩
    · rw [hv] at hq
      simp at hq
      rw [hq, he]
      exact ⟨st.nextSeq, rfl⟩
    · exact h.queueShape k' cst q hv hq
  · intro k' cst n hst hqk
    rcases hclook k' cst hst with ⟨he, hv⟩ | ⟨_, hv⟩
    · rw [hv] at hqk ⊢
      have hq2 : st.activeBatchKey = BatchKey.queued k' n := hqk
      rw [he] at hq2
      have := h.activeSeq k st n hconv hq2
      show n < st.nextSeq + 1
      omega
    · exact h.activeSeq k' cst n hv hqk
  · intro k' cst n hst hqk
    rcases hclook k' cst hst with ⟨he, hv⟩ | ⟨_, hv⟩
    · rw [hv] at hqk ⊢
      have hq2 : BatchKey.queued k' n ∈ [BatchKey.queued k st.nextSeq] := hqk
      simp at hq2
      show n < st.nextSeq + 1
      omega
    · exact h.queueSeq k' cst n hv hqk
  · intro k' cst hst
    rcases hclook k' cst hst with ⟨he, hv⟩ | ⟨_, hv⟩
    · rw [hv]
      intro hmem
      have hq2 : st.activeBatchKey ∈ [BatchKey.queued k st.nextSeq] := hmem
      simp at hq2
      exact hactNe hq2
    · exact h.activeNotQueued k' cst hv
  · intro k' cst q hst hq
    rcases hclook k' cst hst with ⟨he, hv⟩ | ⟨hke, hv⟩
    · rw [hv] at hq
      simp at hq
      refine ⟨newPending s.nextId k (BatchKey.queued k st.nextSeq) msgid content, ?_⟩
      dsimp only
      rw [hq]
      exact MapF.set_same _ _ _
    · rcases h.queuePend k' cst q hv hq with ⟨p, hp⟩
      rcases h.queueShape k' cst q hv hq with ⟨n, hn⟩
      have hnq : q ≠ BatchKey.queued k st.nextSeq := by
        rw [hn]
        intro hx
        injection hx with h1 _
        exact hke h1
      refine ⟨p, ?_⟩
      dsimp only
      rw [MapF.set_other _ _ hnq]
      exact hp
  · intro b p hp
    dsimp only at hp
    rcases MapF.set_eq_some.mp hp with ⟨he, hv⟩ | ⟨hne, hv⟩
    · have hv' : newPending s.nextId k (BatchKey.queued k st.nextSeq) msgid content = p := by
        injection hv
      rw [he, ← hv']
      exact ⟨rfl, rfl⟩
    · exact h.pendShape b p hv
  · intro b p hp
    dsimp only at hp ⊢
    rcases MapF.set_eq_some.mp hp with ⟨_, hv⟩ | ⟨_, hv⟩
    · have hv' : newPending s.nextId k (BatchKey.queued k st.nextSeq) msgid content = p := by
        injection hv
      rw [← hv']
      exact Nat.lt_succ_self _
    · exact Nat.lt_succ_of_lt (h.pendId b p hv)
  · intro b b' p p' hp hp' hne
    dsimp only at hp hp'
    rcases MapF.set_eq_some.mp hp with ⟨he, hv⟩ | ⟨hb, hv⟩ <;>
      rcases MapF.set_eq_some.mp hp' with ⟨he', hv'⟩ | ⟨hb', hv'⟩
    · exact absurd (he.trans he'.symm) hne
    · have hv2 : newPending s.nextId k (BatchKey.queued k st.nextSeq) msgid content = p := by
        injection hv
      have hlt := h.pendId b' p' hv'
      rw [← hv2]
      show s.nextId ≠ p'.streamId
      omega
    · have hv2 : newPending s.nextId k (BatchKey.queued k st.nextSeq) msgid content = p' := by
        injection hv'
      have hlt := h.pendId b p hv
      rw [← hv2]
      show p.streamId ≠ s.nextId
      omega
    · exact h.pendDistinct b b' p p' hv hv' hne
  · intro i ss hss
    dsimp only at hss ⊢
    rcases MapF.set_eq_some.mp hss with ⟨he, _⟩ | ⟨_, hv⟩
    · rw [he]; exact Nat.lt_succ_self _
    · exact Nat.lt_succ_of_lt (h.streamsId i ss hv)
  · intro m i hm
    dsimp only at hm ⊢
    rcases hmv : msgidVal msgid with _ | mm <;> rw [hmv] at hm
    · exact Nat.lt_succ_of_lt (h.msgidId m i hm)
    · rcases MapF.set_eq_some.mp hm with ⟨_, hv⟩ | ⟨_, hv⟩
      · injection hv with hv
        rw [← hv]
        exact Nat.lt_succ_self _
      · exact Nat.lt_succ_of_lt (h.msgidId m i hv)
  · intro i b hb
    dsimp only at hb ⊢
    rcases MapF.set_eq_some.mp hb with ⟨he, _⟩ | ⟨_, hv⟩
    · rw [he]; exact Nat.lt_succ_self _
    · exact Nat.lt_succ_of_lt (h.sibId i b hv)
  · intro k' cst hst hne
    rcases hclook k' cst hst with ⟨he, hv⟩ | ⟨hke, hv⟩
    · rw [hv]
      dsimp only
      rcases hblock with h1 | h2 | ⟨p, ss, hp, hss, hstart⟩
      · exact Or.inl (by rw [he]; exact h1)
      · refine Or.inr (Or.inl ?_)
        show (s.pendingInbounds.set (BatchKey.queued k st.nextSeq) _) st.activeBatchKey = none
        rw [MapF.set_other _ _ hactNe]
        exact h2
      · refine Or.inr (Or.inr ?_)
        have hid : p.streamId ≠ s.nextId := Nat.ne_of_lt (h.pendId _ p hp)
        refine ⟨p, ss, ?_, ?_, hstart⟩
        · show (s.pendingInbounds.set (BatchKey.queued k st.nextSeq) _) st.activeBatchKey = some p
          rw [MapF.set_other _ _ hactNe]
          exact hp
        · show (s.streams.set s.nextId _) p.streamId = some ss
          rw [MapF.set_other _ _ hid]
          exact hss
    · rcases h.mergeBlock k' cst hv hne with h1 | h2 | ⟨p, ss, hp, hss, hstart⟩
      · exact Or.inl h1
      · refine Or.inr (Or.inl ?_)
        have hna : cst.activeBatchKey ≠ BatchKey.queued k st.nextSeq := by
          intro hx
          have := h.activeShape k' cst hv
          rw [hx] at this
          exact hke this.symm
        show (s.pendingInbounds.set (BatchKey.queued k st.nextSeq) _) cst.activeBatchKey = none
        rw [MapF.set_other _ _ hna]
        exact h2
      · refine Or.inr (Or.inr ?_)
        have hna : cst.activeBatchKey ≠ BatchKey.queued k st.nextSeq := by
          intro hx
          have := h.activeShape k' cst hv
          rw [hx] at this
          exact hke this.symm
        have hid : p.streamId ≠ s.nextId := Nat.ne_of_lt (h.pendId _ p hp)
        refine ⟨p, ss, ?_, ?_, hstart⟩
        · show (s.pendingInbounds.set (BatchKey.queued k st.nextSeq) _) cst.activeBatchKey = some p
          rw [MapF.set_other _ _ hna]
          exact hp
        · show (s.streams.set s.nextId _) p.streamId = some ss
          rw [MapF.set_other _ _ hid]
          exact hss

/-- Admission preserves well-formedness. -/
theorem wf_addPendingMessage {s : Store} (h : WF s) (k : String)
    (msgid : Option String) (content : String) :
    WF (addPendingMessage s k msgid content).store := by
  unfold addPendingMessage
  split
  · exact wf_addInitial h k msgid content
  · next st hconv =>
    dsimp only
    split
    · next r hr =>
      split at hr
      · next ap hap =>
        split at hr
        · exact absurd hr (by simp)
        · split at hr
          · exact absurd hr (by simp)
          · injection hr with hr
            rw [← hr]
            exact wf_update_pending h hap rfl rfl rfl
      · exact absurd hr (by simp)
    · next hr =>
      have hblock : st.activeBatchKey = BatchKey.initial k ∨
          s.pendingInbounds st.activeBatchKey = none ∨
          ∃ p ss, s.pendingInbounds st.activeBatchKey = some p ∧
            s.streams p.streamId = some ss ∧ ss.started = true := by
        split at hr
        · next ap hap =>
          split at hr
          · next hinit => exact Or.inl hinit
          · split at hr
            · next hstarted =>
              rcases hss : s.streams ap.streamId with _ | ss
              · rw [hss] at hstarted
                exact absurd hstarted (by simp)
              · rw [hss] at hstarted
                exact Or.inr (Or.inr ⟨ap, ss, hap, hss, hstarted⟩)
            · exact absurd hr (by simp)
        · next hap => exact Or.inr (Or.inl hap)
      split
      · next r hr2 =>
        split at hr2
        · next q hq =>
          split at hr2
          · next ex hex =>
            injection hr2 with hr2
            rw [← hr2]
            exact wf_update_pending h hex rfl rfl rfl
          · exact absurd hr2 (by simp)
        · exact absurd hr2 (by simp)
      · exact wf_addQueuedNew h hconv hblock msgid content

/-- Every operation preserves well-formedness. -/
theorem wf_applyOp {s : Store} (h : WF s) (op : Op) : WF (applyOp s op) := by
  cases op with
  | add k msgid content => exact wf_addPendingMessage h k msgid content
  | fire bk => exact wf_requestFlush h bk
  | finish sid => exact wf_onStreamFinished h sid
  | start sid => exact wf_markStarted h sid

/-- Every store reachable from the initial store is well-formed. -/
theorem wf_run (ops : List Op) : WF (run ops) := by
  suffices hgen : ∀ s, WF s → WF (ops.foldl applyOp s) from hgen Store.init wf_init
  induction ops with
  | nil => intro s hs; exact hs
  | cons op rest ih =>
    intro s hs
    exact ih (applyOp s op) (wf_applyOp hs op)

/-!
## Branch characterizations of `addPendingMessage`
-/

/-- The merge-into-active fall-through condition of `addPendingMessage`. -/
def MergeBlocked (s : Store) (k : String) (st : Conv) : Prop :=
  st.activeBatchKey = BatchKey.initial k ∨
  s.pendingInbounds st.activeBatchKey = none ∨
  ∃ p ss, s.pendingInbounds st.activeBatchKey = some p ∧
    s.streams p.streamId = some ss ∧ ss.started = true

/-- When the merge-into-active branch is blocked and a queued pending is
live, a further message merges into the queued batch. -/
theorem add_queueCons_merges {s : Store} {k : String} {st : Conv}
    {q : BatchKey} {rest : List BatchKey} {ex : Pending}
    (hconv : s.conversationState k = some st)
    (hblock : MergeBlocked s k st)
    (hq : st.queue = q :: rest) (hex : s.pendingInbounds q = some ex)
    (msgid : Option String) (content : String) :
    addPendingMessage s k msgid content = mergedResult s q ex .queued_merged msgid content := by
  unfold addPendingMessage
  rw [hconv]
  dsimp only
  rw [hq]
  rcases hblock with h1 | h2 | ⟨p, ss, hp, hss, hstart⟩
  · rcases hap : s.pendingInbounds st.activeBatchKey with _ | ap <;>
      simp [hex, h1]
  · rw [h2]
    simp [hex]
  · by_cases hinit : st.activeBatchKey = BatchKey.initial k
    · rw [hinit]
      rcases hap : s.pendingInbounds (BatchKey.initial k) with _ | ap <;>
        simp [hap, hex]
    · simp [hp, hss, hex, hinit, hstart]

/-- When the merge-into-active branch is blocked and the queue is empty, a
further message creates a fresh queued batch. -/
theorem add_queueEmpty_new {s : Store} {k : String} {st : Conv}
    (hconv : s.conversationState k = some st)
    (hblock : MergeBlocked s k st)
    (hq : st.queue = []) (msgid : Option String) (content : String) :
    addPendingMessage s k msgid content = addQueuedNew s k st msgid content := by
  unfold addPendingMessage
  rw [hconv]
  dsimp only
  rw [hq]
  rcases hblock with h1 | h2 | ⟨p, ss, hp, hss, hstart⟩
  · rcases hap : s.pendingInbounds st.activeBatchKey with _ | ap <;>
      simp [h1]
  · rw [h2]
    simp
  · by_cases hinit : st.activeBatchKey = BatchKey.initial k
    · rw [hinit]
      rcases hap : s.pendingInbounds (BatchKey.initial k) with _ | ap <;>
        simp [hap]
    · simp [hp, hss, hinit, hstart]

/-- An absent conversation entry always yields `active_new`. -/
theorem add_absent_active_new {s : Store} {k : String}
    (hconv : s.conversationState k = none) (msgid : Option String) (content : String) :
    (addPendingMessage s k msgid content).status = AddStatus.active_new := by
  unfold addPendingMessage
  rw [hconv]
  rfl

/-- C1: for a conversation whose active batch is the initial batch,
`addPendingMessage` never merges into the active batch: it returns a stream
id distinct from the active batch's stream id, with status `queued_new` when
no queued batch exists yet and `queued_merged` otherwise, and the initial
active pending entry (contents and msg-id lists included) is unchanged. -/
theorem C1_initial_active_batch_never_merges
    {s : Store} (h : WF s) {k : String} {st : Conv} {ap : Pending}
    (hconv : s.conversationState k = some st)
    (hinit : st.activeBatchKey = BatchKey.initial k)
    (hap : s.pendingInbounds (BatchKey.initial k) = some ap)
    (msgid : Option String) (content : String) :
    (addPendingMessage s k msgid content).streamId ≠ ap.streamId ∧
    (st.queue = [] → (addPendingMessage s k msgid content).status = AddStatus.queued_new) ∧
    (st.queue ≠ [] → (addPendingMessage s k msgid content).status = AddStatus.queued_merged) ∧
    (addPendingMessage s k msgid content).store.pendingInbounds (BatchKey.initial k) = some ap := by
  rcases hqe : st.queue with _ | ⟨q, rest⟩
  · rw [add_queueEmpty_new hconv (Or.inl hinit) hqe msgid content]
    have hlt := h.pendId _ ap hap
    refine ⟨?_, fun _ => rfl, fun hne => absurd rfl hne, ?_⟩
    · show s.nextId ≠ ap.streamId
      omega
    · show ((addQueuedNew s k st msgid content).store.pendingInbounds) (BatchKey.initial k) = some ap
      unfold addQueuedNew createStream
      dsimp only
      rw [MapF.set_other _ _ (fun hx => BatchKey.noConfusion hx)]
      exact hap
  · have hqmem : q ∈ st.queue := by rw [hqe]; exact List.mem_cons_self _ _
    rcases h.queuePend k st q hconv hqmem with ⟨ex, hex⟩
    rcases h.queueShape k st q hconv hqmem with ⟨n, hn⟩
    have hqni : q ≠ BatchKey.initial k := by
      rw [hn]; exact fun hx => BatchKey.noConfusion hx
    rw [add_queueCons_merges hconv (Or.inl hinit) hqe hex msgid content]
    refine ⟨?_, fun h0 => absurd h0 (by simp), fun _ => rfl, ?_⟩
    · exact h.pendDistinct q (BatchKey.initial k) ex ap hex hap hqni
    · show ((mergedResult s q ex .queued_merged msgid content).store.pendingInbounds)
        (BatchKey.initial k) = some ap
      unfold mergedResult
      dsimp only
      rw [MapF.set_other _ _ (Ne.symm hqni)]
      exact hap

/-- Witness for C1 on a concrete run: after one message in conversation `a`,
the active batch is the initial batch and a second message is queued, not
merged. -/
theorem C1_witness :
    (addPendingMessage (run [Op.add "a" (some "m1") "hello"]) "a" (some "m2") "again").status
      = AddStatus.queued_new := by
  have happ := @C1_initial_active_batch_never_merges
    (run [Op.add "a" (some "m1") "hello"])
    (wf_run [Op.add "a" (some "m1") "hello"]) "a"
    ⟨BatchKey.initial "a", [], 1⟩
    (newPending 0 "a" (BatchKey.initial "a") (some "m1") "hello")
    (by decide) (rfl) (by decide) (some "m2") "again"
  exact happ.2.1 rfl

/-- C2: on every reachable store, each conversation entry has exactly one
active batch key and a queue of length at most one, and a message arriving
while a queued batch exists merges into that queued batch — it creates no
second queued batch and leaves the queue as it was. -/
theorem C2_queue_invariant (ops : List Op) :
    (∀ k st, (run ops).conversationState k = some st →
      (∃! a : BatchKey, st.activeBatchKey = a) ∧ st.queue.length ≤ 1) ∧
    (∀ k st q, (run ops).conversationState k = some st → st.queue = [q] →
      ∀ msgid content,
        (addPendingMessage (run ops) k msgid content).status = AddStatus.queued_merged ∧
        (∀ b, (run ops).pendingInbounds b = none →
          (addPendingMessage (run ops) k msgid content).store.pendingInbounds b = none) ∧
        (∃ st', (addPendingMessage (run ops) k msgid content).store.conversationState k = some st' ∧
          st'.queue = [q])) := by
  have h := wf_run ops
  constructor
  · intro k st hst
    exact ⟨⟨st.activeBatchKey, rfl, fun y hy => hy.symm⟩, h.queueLen k st hst⟩
  · intro k st q hst hq msgid content
    have hqmem : q ∈ st.queue := by rw [hq]; exact List.mem_cons_self _ _
    rcases h.queuePend k st q hst hqmem with ⟨ex, hex⟩
    have hblock : MergeBlocked (run ops) k st := h.mergeBlock k st hst (by rw [hq]; simp)
    rw [add_queueCons_merges hst hblock hq hex msgid content]
    refine ⟨rfl, ?_, ⟨st, hst, hq⟩⟩
    intro b hb
    unfold mergedResult
    dsimp only
    have hbq : b ≠ q := fun he => by rw [he, hex] at hb; exact Option.noConfusion hb
    rw [MapF.set_other _ _ hbq]
    exact hb

/-- Witness for C2 on a concrete run: conversation `a` has the queued batch
`a#q1`; a third message merges into it. -/
theorem C2_witness :
    (addPendingMessage (run [Op.add "a" none "x", Op.add "a" none "y"]) "a" none "z").status
      = AddStatus.queued_merged := by
  have happ := (C2_queue_invariant [Op.add "a" none "x", Op.add "a" none "y"]).2
    "a" ⟨BatchKey.initial "a", [BatchKey.queued "a" 1], 2⟩ (BatchKey.queued "a" 1)
    (by decide) rfl none "z"
  exact happ.1

/-- `onStreamFinished` on the active batch with an empty queue deletes the
conversation entry. -/
theorem onStreamFinished_queueEmpty {s : Store} {sid : Nat} {bk : BatchKey}
    {ss : StreamState} {ck : String} {conv : Conv}
    (hbk : s.streamIdToBatchKey sid = some bk)
    (hss : s.streams sid = some ss)
    (hck : ss.conversationKey = some ck)
    (hconv : s.conversationState ck = some conv)
    (hact : conv.activeBatchKey = bk)
    (hq : conv.queue = []) :
    onStreamFinished s sid =
      (⟨s.nextId, s.streams, s.msgidToStreamId, s.pendingInbounds,
        s.conversationState.set ck none, s.streamIdToBatchKey, s.ackStreams⟩, none) := by
  unfold onStreamFinished
  rw [hbk]
  dsimp only
  rw [hss]
  dsimp only
  rw [hck]
  dsimp only
  rw [hconv]
  dsimp only
  rw [hact]
  simp only [if_pos rfl]
  rw [hq]
  simp

/-- `onStreamFinished` on the active batch with a queued batch promotes it,
flushing immediately exactly when it is `readyToFlush`. -/
theorem onStreamFinished_promotes {s : Store} {sid : Nat} {bk : BatchKey}
    {ss : StreamState} {ck : String} {conv : Conv} {q : BatchKey} {rest : List BatchKey}
    {p : Pending}
    (hbk : s.streamIdToBatchKey sid = some bk)
    (hss : s.streams sid = some ss)
    (hck : ss.conversationKey = some ck)
    (hconv : s.conversationState ck = some conv)
    (hact : conv.activeBatchKey = bk)
    (hqe : conv.queue = q :: rest)
    (hp : s.pendingInbounds q = some p) :
    onStreamFinished s sid =
      (if p.readyToFlush then
        (⟨s.nextId, s.streams, s.msgidToStreamId, s.pendingInbounds.set q none,
          s.conversationState.set ck (some ⟨q, rest, conv.nextSeq⟩),
          s.streamIdToBatchKey, s.ackStreams⟩,
         some { p with timerActive := false, readyToFlush := false })
      else
        (⟨s.nextId, s.streams, s.msgidToStreamId, s.pendingInbounds,
          s.conversationState.set ck (some ⟨q, rest, conv.nextSeq⟩),
          s.streamIdToBatchKey, s.ackStreams⟩, none)) := by
  unfold onStreamFinished
  rw [hbk]
  dsimp only
  rw [hss]
  dsimp only
  rw [hck]
  dsimp only
  rw [hconv]
  dsimp only
  rw [hact]
  simp only [if_pos rfl]
  rw [hqe]
  dsimp only
  rw [hp]
  dsimp only
  cases hrf : p.readyToFlush
  · simp [hrf]
  · simp only [hrf, if_true]
    unfold flushPending
    dsimp only
    rw [hp]

/-- C4: when the finished stream owns the conversation's current active
batch, `onStreamFinished` pops the queue: with no queued batch the
conversation entry is deleted (so the next `addPendingMessage` returns
`active_new`); with a queued batch, that batch becomes the active batch and
is flushed immediately if and only if `readyToFlush` is set, otherwise its
own later timer fire flushes it. When the stream does not own the current
active batch, the store is unchanged. -/
theorem C4_onStreamFinished_pops_queue {s : Store} (h : WF s) (sid : Nat) :
    (∀ bk ss ck conv, s.streamIdToBatchKey sid = some bk → s.streams sid = some ss →
      ss.conversationKey = some ck → s.conversationState ck = some conv →
      conv.activeBatchKey = bk →
      ((conv.queue = [] →
        (onStreamFinished s sid).1.conversationState ck = none ∧
        (onStreamFinished s sid).2 = none ∧
        ∀ msgid content,
          (addPendingMessage (onStreamFinished s sid).1 ck msgid content).status =
            AddStatus.active_new) ∧
      (∀ q rest, conv.queue = q :: rest →
        ∃ p, s.pendingInbounds q = some p ∧
          (∃ conv2, (onStreamFinished s sid).1.conversationState ck = some conv2 ∧
            conv2.activeBatchKey = q) ∧
          (p.readyToFlush = true →
            (onStreamFinished s sid).2 = some { p with timerActive := false, readyToFlush := false } ∧
            (onStreamFinished s sid).1.pendingInbounds q = none) ∧
          (p.readyToFlush = false →
            (onStreamFinished s sid).2 = none ∧
            (onStreamFinished s sid).1.pendingInbounds q = some p ∧
            (requestFlush (onStreamFinished s sid).1 q).2 =
              some { p with timerActive := false, readyToFlush := false })))) ∧
    ((∀ bk ss ck conv, s.streamIdToBatchKey sid = some bk → s.streams sid = some ss →
      ss.conversationKey = some ck → s.conversationState ck = some conv →
      conv.activeBatchKey ≠ bk) → onStreamFinished s sid = (s, none)) := by
  constructor
  · intro bk ss ck conv hbk hss hck hconv hact
    constructor
    · intro hq
      rw [onStreamFinished_queueEmpty hbk hss hck hconv hact hq]
      refine ⟨MapF.set_same _ _ _, rfl, ?_⟩
      intro msgid content
      exact add_absent_active_new (MapF.set_same _ _ _) msgid content
    · intro q rest hqe
      have hqmem : q ∈ conv.queue := by rw [hqe]; exact List.mem_cons_self _ _
      rcases h.queuePend ck conv q hconv hqmem with ⟨p, hp⟩
      rcases h.queueShape ck conv q hconv hqmem with ⟨n, hn⟩
      have hpck : p.conversationKey = ck := by
        rw [(h.pendShape q p hp).2, hn]
        rfl
      refine ⟨p, hp, ?_, ?_, ?_⟩
      · rw [onStreamFinished_promotes hbk hss hck hconv hact hqe hp]
        cases hrf : p.readyToFlush
        · rw [if_neg (by simp)]
          exact ⟨⟨q, rest, conv.nextSeq⟩, MapF.set_same _ _ _, rfl⟩
        · rw [if_pos rfl]
          exact ⟨⟨q, rest, conv.nextSeq⟩, MapF.set_same _ _ _, rfl⟩
      · intro hrf
        rw [onStreamFinished_promotes hbk hss hck hconv hact hqe hp, if_pos hrf]
        exact ⟨rfl, MapF.set_same _ _ _⟩
      · intro hrf
        rw [onStreamFinished_promotes hbk hss hck hconv hact hqe hp, if_neg (by simp [hrf])]
        refine ⟨rfl, hp, ?_⟩
        unfold requestFlush
        dsimp only
        rw [hp]
        dsimp only
        rw [hpck, MapF.set_same]
        rw [if_pos (show (q == q) = true by simp)]
        unfold flushPending
        dsimp only
        rw [hp]
        simp
        exact hpck
  · intro hnot
    unfold onStreamFinished
    split
    · rfl
    · next bk hbk =>
      split
      · rfl
      · next ss hss =>
        split
        · rfl
        · next ck hck =>
          split
          · rfl
          · next conv hconv =>
            split
            · next hact => exact absurd hact (hnot bk ss ck conv hbk hss hck hconv)
            · rfl

/-- Witness for C4 on a concrete run: finishing the only active stream of
conversation `a` deletes its conversation entry. -/
theorem C4_witness :
    (onStreamFinished (run [Op.add "a" none "x"]) 0).1.conversationState "a" = none := by
  have happ := (C4_onStreamFinished_pops_queue (wf_run [Op.add "a" none "x"]) 0).1
    (BatchKey.initial "a") ⟨0, none, some "a", some (BatchKey.initial "a"), false, false, ""⟩
    "a" ⟨BatchKey.initial "a", [], 1⟩ (by decide) (by decide) rfl (by decide) rfl
  exact (happ.1 rfl).1

/-!
## UTF-8 model (WHATWG decoding, as performed by `Buffer.toString("utf8")`)

Bytes and code points are `Nat`s.  `utf8Decode` follows the WHATWG UTF-8
decoder (one U+FFFD per maximal invalid subpart — in particular one per
stray continuation byte), which is the behaviour of Node's
`Buffer.prototype.toString("utf8")`.
-/

/-- Decoder state: ground, or inside a multi-byte sequence with `needed`
continuation bytes left, the accumulated code point, and the WHATWG bounds
for the next byte. -/
inductive Ustate : Type
  | ground
  | pend (needed cp lo hi : Nat)

/-- Classify a lead byte (≥ 0x80): the state it opens, or `none` when it
cannot begin a sequence. -/
def leadState (b : Nat) : Option Ustate :=
  if 0xC2 ≤ b ∧ b ≤ 0xDF then some (.pend 1 (b - 0xC0) 0x80 0xBF)
  else if b = 0xE0 then some (.pend 2 0 0xA0 0xBF)
  else if b = 0xED then some (.pend 2 13 0x80 0x9F)
  else if 0xE0 ≤ b ∧ b ≤ 0xEF then some (.pend 2 (b - 0xE0) 0x80 0xBF)
  else if b = 0xF0 then some (.pend 3 0 0x90 0xBF)
  else if b = 0xF4 then some (.pend 3 4 0x80 0x8F)
  else if 0xF0 ≤ b ∧ b ≤ 0xF4 then some (.pend 3 (b - 0xF0) 0x80 0xBF)
  else none

/-- The WHATWG UTF-8 decoder with replacement; an invalid byte is emitted as
U+FFFD and, when it ended a pending sequence, reprocessed in ground state. -/
def utf8DecodeGo : Ustate → List Nat → List Nat
  | .ground, [] => []
  | .pend _ _ _ _, [] => [0xFFFD]
  | .ground, b :: rest =>
    if b < 0x80 then b :: utf8DecodeGo .ground rest
    else
      match leadState b with
      | some st => utf8DecodeGo st rest
      | none => 0xFFFD :: utf8DecodeGo .ground rest
  | .pend n cp lo hi, b :: rest =>
    if lo ≤ b ∧ b ≤ hi then
      if n = 1 then (cp * 64 + (b - 0x80)) :: utf8DecodeGo .ground rest
      else utf8DecodeGo (.pend (n - 1) (cp * 64 + (b - 0x80)) 0x80 0xBF) rest
    else
      0xFFFD ::
        (if b < 0x80 then b :: utf8DecodeGo .ground rest
         else
           match leadState b with
           | some st => utf8DecodeGo st rest
           | none => 0xFFFD :: utf8DecodeGo .ground rest)

/-- Decode a byte list to code points. -/
def utf8Decode (l : List Nat) : List Nat :=
  utf8DecodeGo .ground l

/-- Encode one Unicode scalar value. -/
def encodeChar (c : Nat) : List Nat :=
  if c < 0x80 then [c]
  else if c < 0x800 then [0xC0 + c / 64, 0x80 + c % 64]
  else if c < 0x10000 then [0xE0 + c / 4096, 0x80 + c / 64 % 64, 0x80 + c % 64]
  else [0xF0 + c / 262144, 0x80 + c / 4096 % 64, 0x80 + c / 64 % 64, 0x80 + c % 64]

/-- Encode a code-point list to UTF-8 bytes (`Buffer.from(text, "utf8")` on
a string free of lone surrogates). -/
def utf8Encode (l : List Nat) : List Nat :=
  (l.map encodeChar).flatten

/-- A Unicode scalar value (what a JS string position encodes, lone
surrogates excluded). -/
def ValidScalar (c : Nat) : Prop :=
  c < 0x110000 ∧ ¬(0xD800 ≤ c ∧ c ≤ 0xDFFF)

instance (c : Nat) : Decidable (ValidScalar c) := by
  unfold ValidScalar
  infer_instance

/-- The last `n` elements of a list (`buf.subarray(buf.length - n)`). -/
def takeRight {α : Type} (n : Nat) (l : List α) : List α :=
  l.drop (l.length - n)

/-- `STREAM_MAX_BYTES` (LIMITS in the monitor state module). -/
def STREAM_MAX_BYTES : Nat := 20480

/-- `truncateUtf8Bytes` over code points: keep the text when its UTF-8 fits,
otherwise decode the last `maxBytes` bytes of its encoding. -/
def truncateUtf8Bytes (text : List Nat) (maxBytes : Nat) : List Nat :=
  let buf := utf8Encode text
  if buf.length ≤ maxBytes then text
  else utf8Decode (takeRight maxBytes buf)

/-- JS whitespace for `String.prototype.trim`. -/
def wsCp (c : Nat) : Bool :=
  c = 9 || c = 10 || c = 11 || c = 12 || c = 13 || c = 32 || c = 160 ||
  c = 0x1680 || (0x2000 ≤ c && c ≤ 0x200A) || c = 0x2028 || c = 0x2029 ||
  c = 0x202F || c = 0x205F || c = 0x3000 || c = 0xFEFF

/-- `trim()` over code points. -/
def trimCp (l : List Nat) : List Nat :=
  ((l.dropWhile wsCp).reverse.dropWhile wsCp).reverse

/-- The block-delivery content update (monitor `deliver` callback): append
the block text to the current visible content (with a blank line between)
and right-truncate to `STREAM_MAX_BYTES` of UTF-8. -/
def appendStreamContent (current text : List Nat) : List Nat :=
  let nextText := if current.isEmpty then trimCp text
    else trimCp (current ++ [10, 10] ++ text)
  truncateUtf8Bytes nextText STREAM_MAX_BYTES


theorem leadState_cont {b : Nat} (h1 : 0x80 ≤ b) (h2 : b ≤ 0xBF) : leadState b = none := by
  unfold leadState
  rw [if_neg (by omega), if_neg (by omega), if_neg (by omega), if_neg (by omega),
    if_neg (by omega), if_neg (by omega), if_neg (by omega)]

theorem decode_ground_ascii {b : Nat} (hb : b < 0x80) (rest : List Nat) :
    utf8DecodeGo .ground (b :: rest) = b :: utf8DecodeGo .ground rest := by
  simp only [utf8DecodeGo]
  rw [if_pos hb]

theorem decode_ground_lead {b : Nat} {st : Ustate} (hb : ¬ b < 0x80)
    (hls : leadState b = some st) (rest : List Nat) :
    utf8DecodeGo .ground (b :: rest) = utf8DecodeGo st rest := by
  simp only [utf8DecodeGo]
  rw [if_neg hb, hls]

theorem decode_ground_invalid {b : Nat} (hb : ¬ b < 0x80)
    (hls : leadState b = none) (rest : List Nat) :
    utf8DecodeGo .ground (b :: rest) = 0xFFFD :: utf8DecodeGo .ground rest := by
  simp only [utf8DecodeGo]
  rw [if_neg hb, hls]

theorem decode_pend_last {cp lo hi b : Nat} (hb : lo ≤ b ∧ b ≤ hi) (rest : List Nat) :
    utf8DecodeGo (.pend 1 cp lo hi) (b :: rest) =
      (cp * 64 + (b - 0x80)) :: utf8DecodeGo .ground rest := by
  simp only [utf8DecodeGo]
  rw [if_pos hb, if_pos trivial]

theorem decode_pend_step {n cp lo hi b : Nat} (hn : n ≠ 1) (hb : lo ≤ b ∧ b ≤ hi)
    (rest : List Nat) :
    utf8DecodeGo (.pend n cp lo hi) (b :: rest) =
      utf8DecodeGo (.pend (n - 1) (cp * 64 + (b - 0x80)) 0x80 0xBF) rest := by
  simp only [utf8DecodeGo]
  rw [if_pos hb, if_neg hn]

theorem decode_pend_invalid {n cp lo hi b : Nat} (h : ¬ (lo ≤ b ∧ b ≤ hi)) (rest : List Nat) :
    utf8DecodeGo (.pend n cp lo hi) (b :: rest) =
      0xFFFD :: utf8DecodeGo .ground (b :: rest) := by
  simp only [utf8DecodeGo]
  rw [if_neg h]

theorem leadState_two {b : Nat} (h : 0xC2 ≤ b ∧ b ≤ 0xDF) :
    leadState b = some (.pend 1 (b - 0xC0) 0x80 0xBF) := by
  unfold leadState
  rw [if_pos h]

theorem leadState_E0 : leadState 0xE0 = some (.pend 2 0 0xA0 0xBF) := rfl

theorem leadState_ED : leadState 0xED = some (.pend 2 13 0x80 0x9F) := rfl

theorem leadState_three {b : Nat} (h : 0xE0 ≤ b ∧ b ≤ 0xEF) (h2 : b ≠ 0xE0) (h3 : b ≠ 0xED) :
    leadState b = some (.pend 2 (b - 0xE0) 0x80 0xBF) := by
  unfold leadState
  rw [if_neg (by omega), if_neg h2, if_neg h3, if_pos h]

theorem leadState_F0 : leadState 0xF0 = some (.pend 3 0 0x90 0xBF) := rfl

theorem leadState_F4 : leadState 0xF4 = some (.pend 3 4 0x80 0x8F) := rfl

theorem leadState_four {b : Nat} (h : 0xF0 ≤ b ∧ b ≤ 0xF4) (h2 : b ≠ 0xF0) (h3 : b ≠ 0xF4) :
    leadState b = some (.pend 3 (b - 0xF0) 0x80 0xBF) := by
  unfold leadState
  rw [if_neg (by omega), if_neg (by omega), if_neg (by omega), if_neg (by omega),
    if_neg h2, if_neg h3, if_pos h]

/-- Decoding the encoding of one scalar value consumes exactly that character. -/
theorem decode_encodeChar {c : Nat} (hc : ValidScalar c) (rest : List Nat) :
    utf8DecodeGo .ground (encodeChar c ++ rest) = c :: utf8DecodeGo .ground rest := by
  obtain ⟨hlt, hsur⟩ := hc
  by_cases h1 : c < 0x80
  · rw [encodeChar, if_pos h1]
    exact decode_ground_ascii h1 rest
  · by_cases h2 : c < 0x800
    · rw [encodeChar, if_neg h1, if_pos h2]
      rw [List.cons_append, List.cons_append, List.nil_append]
      rw [decode_ground_lead (by omega) (leadState_two ⟨by omega, by omega⟩) _]
      rw [decode_pend_last ⟨by omega, by omega⟩ rest]
      have : (0xC0 + c / 64 - 0xC0) * 64 + (0x80 + c % 64 - 0x80) = c := by omega
      rw [this]
    · by_cases h3 : c < 0x10000
      · rw [encodeChar, if_neg h1, if_neg h2, if_pos h3]
        rw [List.cons_append, List.cons_append, List.cons_append, List.nil_append]
        by_cases hE0 : c / 4096 = 0
        · rw [show (0xE0 + c / 4096 : Nat) = 0xE0 by omega]
          rw [decode_ground_lead (by omega) leadState_E0 _]
          rw [decode_pend_step (by omega) ⟨by omega, by omega⟩ _]
          rw [decode_pend_last ⟨by omega, by omega⟩ rest]
          have : (0 * 64 + (0x80 + c / 64 % 64 - 0x80)) * 64 + (0x80 + c % 64 - 0x80) = c := by
            omega
          rw [this]
        · by_cases hED : c / 4096 = 13
          · rw [show (0xE0 + c / 4096 : Nat) = 0xED by omega]
            rw [decode_ground_lead (by omega) leadState_ED _]
            rw [decode_pend_step (by omega) ⟨by omega, by omega⟩ _]
            rw [decode_pend_last ⟨by omega, by omega⟩ rest]
            have : (13 * 64 + (0x80 + c / 64 % 64 - 0x80)) * 64 + (0x80 + c % 64 - 0x80) = c := by
              omega
            rw [this]
          · rw [decode_ground_lead (by omega)
              (leadState_three ⟨by omega, by omega⟩ (by omega) (by omega)) _]
            rw [decode_pend_step (by omega) ⟨by omega, by omega⟩ _]
            rw [decode_pend_last ⟨by omega, by omega⟩ rest]
            have : ((0xE0 + c / 4096 - 0xE0) * 64 + (0x80 + c / 64 % 64 - 0x80)) * 64 +
                (0x80 + c % 64 - 0x80) = c := by omega
            rw [this]
      · rw [encodeChar, if_neg h1, if_neg h2, if_neg h3]
        rw [List.cons_append, List.cons_append, List.cons_append, List.cons_append,
          List.nil_append]
        by_cases hF0 : c / 262144 = 0
        · rw [show (0xF0 + c / 262144 : Nat) = 0xF0 by omega]
          rw [decode_ground_lead (by omega) leadState_F0 _]
          rw [decode_pend_step (by omega) ⟨by omega, by omega⟩ _]
          rw [decode_pend_step (by omega) ⟨by omega, by omega⟩ _]
          rw [decode_pend_last ⟨by omega, by omega⟩ rest]
          have : ((0 * 64 + (0x80 + c / 4096 % 64 - 0x80)) * 64 +
              (0x80 + c / 64 % 64 - 0x80)) * 64 + (0x80 + c % 64 - 0x80) = c := by omega
          rw [this]
        · by_cases hF4 : c / 262144 = 4
          · rw [show (0xF0 + c / 262144 : Nat) = 0xF4 by omega]
            rw [decode_ground_lead (by omega) leadState_F4 _]
            rw [decode_pend_step (by omega) ⟨by omega, by omega⟩ _]
            rw [decode_pend_step (by omega) ⟨by omega, by omega⟩ _]
            rw [decode_pend_last ⟨by omega, by omega⟩ rest]
            have : ((4 * 64 + (0x80 + c / 4096 % 64 - 0x80)) * 64 +
                (0x80 + c / 64 % 64 - 0x80)) * 64 + (0x80 + c % 64 - 0x80) = c := by omega
            rw [this]
          · rw [decode_ground_lead (by omega)
              (leadState_four ⟨by omega, by omega⟩ (by omega) (by omega)) _]
            rw [decode_pend_step (by omega) ⟨by omega, by omega⟩ _]
            rw [decode_pend_step (by omega) ⟨by omega, by omega⟩ _]
            rw [decode_pend_last ⟨by omega, by omega⟩ rest]
            have : (((0xF0 + c / 262144 - 0xF0) * 64 + (0x80 + c / 4096 % 64 - 0x80)) * 64 +
                (0x80 + c / 64 % 64 - 0x80)) * 64 + (0x80 + c % 64 - 0x80) = c := by omega
            rw [this]

theorem utf8Encode_nil : utf8Encode [] = [] := rfl

theorem utf8Encode_cons (c : Nat) (l : List Nat) :
    utf8Encode (c :: l) = encodeChar c ++ utf8Encode l := by
  simp [utf8Encode]

theorem utf8Encode_append (a b : List Nat) :
    utf8Encode (a ++ b) = utf8Encode a ++ utf8Encode b := by
  simp [utf8Encode]

/-- Round-trip: decoding the encoding of a scalar-value list is the identity. -/
theorem utf8Decode_encode (l : List Nat) (h : ∀ c ∈ l, ValidScalar c) :
    utf8Decode (utf8Encode l) = l := by
  induction l with
  | nil => rfl
  | cons c rest ih =>
    rw [utf8Encode_cons]
    show utf8DecodeGo .ground _ = _
    rw [decode_encodeChar (h c (by simp)) _]
    have := ih (fun x hx => h x (by simp [hx]))
    rw [show utf8DecodeGo .ground (utf8Encode rest) = utf8Decode (utf8Encode rest) from rfl, this]

/-- Invariant on a pending decoder state: every in-range completion yields a
Unicode scalar value. -/
def pendOK : Nat → Nat → Nat → Nat → Prop
  | 0, _, _, _ => True
  | 1, cp, lo, hi => ∀ b, lo ≤ b → b ≤ hi → ValidScalar (cp * 64 + (b - 0x80))
  | n + 2, cp, lo, hi => ∀ b, lo ≤ b → b ≤ hi → pendOK (n + 1) (cp * 64 + (b - 0x80)) 0x80 0xBF

/-- Invariant on a decoder state. -/
def stOK : Ustate → Prop
  | .ground => True
  | .pend n cp lo hi => pendOK n cp lo hi

/-- Each state opened by a lead byte satisfies the completion invariant. -/
theorem leadState_stOK {b : Nat} {st : Ustate} (h : leadState b = some st) : stOK st := by
  unfold leadState at h
  split at h
  · cases h
    rename_i hr
    intro b1 hb1 hb1'
    unfold ValidScalar
    omega
  · split at h
    · cases h
      rename_i hr
      intro b1 hb1 hb1' b2 hb2 hb2'
      unfold ValidScalar
      omega
    · split at h
      · cases h
        rename_i hr
        intro b1 hb1 hb1' b2 hb2 hb2'
        unfold ValidScalar
        omega
      · split at h
        · cases h
          rename_i hne hned hr
          intro b1 hb1 hb1' b2 hb2 hb2'
          unfold ValidScalar
          omega
        · split at h
          · cases h
            rename_i hr
            intro b1 hb1 hb1' b2 hb2 hb2' b3 hb3 hb3'
            unfold ValidScalar
            omega
          · split at h
            · cases h
              rename_i hr
              intro b1 hb1 hb1' b2 hb2 hb2' b3 hb3 hb3'
              unfold ValidScalar
              omega
            · split at h
              · cases h
                rename_i hr
                intro b1 hb1 hb1' b2 hb2 hb2' b3 hb3 hb3'
                unfold ValidScalar
                omega
              · cases h

theorem fffd_valid : ValidScalar 0xFFFD := by decide

/-- Every code point emitted by the decoder is a Unicode scalar value. -/
theorem decodeGo_valid (l : List Nat) : ∀ (st : Ustate), stOK st →
    ∀ c ∈ utf8DecodeGo st l, ValidScalar c := by
  induction l with
  | nil =>
    intro st hst c hc
    cases st with
    | ground => simp [utf8DecodeGo] at hc
    | pend n cp lo hi =>
      simp only [utf8DecodeGo, List.mem_singleton] at hc
      rw [hc]
      exact fffd_valid
  | cons b rest ih =>
    intro st hst c hc
    cases st with
    | ground =>
      simp only [utf8DecodeGo] at hc
      by_cases hb : b < 0x80
      · rw [if_pos hb] at hc
        rcases List.mem_cons.1 hc with rfl | hc'
        · exact ⟨by omega, by omega⟩
        · exact ih .ground trivial c hc'
      · rw [if_neg hb] at hc
        rcases hls : leadState b with _ | st'
        · rw [hls] at hc
          rcases List.mem_cons.1 hc with rfl | hc'
          · exact fffd_valid
          · exact ih .ground trivial c hc'
        · rw [hls] at hc
          exact ih st' (leadState_stOK hls) c hc
    | pend n cp lo hi =>
      by_cases hr : lo ≤ b ∧ b ≤ hi
      · by_cases hn : n = 1
        · subst hn
          rw [decode_pend_last hr rest] at hc
          have h1 : pendOK 1 cp lo hi := hst
          simp only [pendOK] at h1
          rcases List.mem_cons.1 hc with he | hc'
          · rw [he]
            exact h1 b hr.1 hr.2
          · exact ih .ground trivial c hc'
        · rw [decode_pend_step hn hr rest] at hc
          refine ih _ ?_ c hc
          match n, hst with
          | 0, _ => trivial
          | m + 2, hst => exact hst b hr.1 hr.2
      · rw [decode_pend_invalid hr rest] at hc
        rcases List.mem_cons.1 hc with rfl | hc'
        · exact fffd_valid
        · by_cases hb : b < 0x80
          · rw [decode_ground_ascii hb rest] at hc'
            rcases List.mem_cons.1 hc' with rfl | hc''
            · exact ⟨by omega, by omega⟩
            · exact ih .ground trivial c hc''
          · rcases hls : leadState b with _ | st'
            · rw [decode_ground_invalid hb hls rest] at hc'
              rcases List.mem_cons.1 hc' with rfl | hc''
              · exact fffd_valid
              · exact ih .ground trivial c hc''
            · rw [decode_ground_lead hb hls rest] at hc'
              exact ih st' (leadState_stOK hls) c hc'

/-- Every code point produced by `utf8Decode` is a Unicode scalar value. -/
theorem utf8Decode_valid (l : List Nat) : ∀ c ∈ utf8Decode l, ValidScalar c :=
  decodeGo_valid l .ground trivial

theorem takeRight_all {α : Type} {n : Nat} {l : List α} (h : l.length ≤ n) :
    takeRight n l = l := by
  unfold takeRight
  rw [show l.length - n = 0 by omega, List.drop_zero]

theorem takeRight_length {α : Type} (n : Nat) (l : List α) :
    (takeRight n l).length = min n l.length := by
  unfold takeRight
  rw [List.length_drop]
  omega

theorem takeRight_append_small {α : Type} {n : Nat} {a b : List α} (h : n ≤ b.length) :
    takeRight n (a ++ b) = takeRight n b := by
  unfold takeRight
  rw [List.length_append]
  rw [show a.length + b.length - n = a.length + (b.length - n) by omega]
  exact List.drop_append (b.length - n)

theorem takeRight_append_large {α : Type} {n : Nat} {a b : List α} (h : b.length ≤ n) :
    takeRight n (a ++ b) = takeRight (n - b.length) a ++ b := by
  unfold takeRight
  rw [List.length_append]
  rw [List.drop_append_of_le_length (by omega)]
  congr 2
  omega

/-- A run of stray continuation bytes decodes to one U+FFFD each. -/
theorem decode_contRun {mid : List Nat} (h : ∀ b ∈ mid, 0x80 ≤ b ∧ b ≤ 0xBF)
    (rest : List Nat) :
    utf8DecodeGo .ground (mid ++ rest) =
      List.replicate mid.length 0xFFFD ++ utf8DecodeGo .ground rest := by
  induction mid with
  | nil => simp
  | cons b t ih =>
    rw [List.cons_append]
    have hb := h b (by simp)
    rw [decode_ground_invalid (by omega) (leadState_cont hb.1 hb.2) _]
    rw [ih (fun x hx => h x (by simp [hx]))]
    simp [List.replicate_succ]

theorem encodeChar_length_le (c : Nat) : (encodeChar c).length ≤ 4 := by
  unfold encodeChar
  split
  · simp
  · split
    · simp
    · split
      · simp
      · simp

theorem encodeChar_length_pos (c : Nat) : 1 ≤ (encodeChar c).length := by
  unfold encodeChar
  split
  · simp
  · split
    · simp
    · split
      · simp
      · simp

/-- Every byte of an encoded character except the first is a continuation
byte. -/
theorem encodeChar_drop_one_cont (c : Nat) :
    ∀ b ∈ (encodeChar c).drop 1, 0x80 ≤ b ∧ b ≤ 0xBF := by
  unfold encodeChar
  split
  · simp
  · split
    · intro b hb
      simp only [List.drop_succ_cons, List.drop_zero, List.mem_singleton] at hb
      omega
    · split
      · intro b hb
        simp only [List.drop_succ_cons, List.drop_zero, List.mem_cons,
          List.mem_singleton, List.not_mem_nil, or_false] at hb
        rcases hb with hb | hb <;> omega
      · intro b hb
        simp only [List.drop_succ_cons, List.drop_zero, List.mem_cons,
          List.mem_singleton, List.not_mem_nil, or_false] at hb
        rcases hb with hb | hb | hb <;> omega

/-- A proper right-slice of an encoded character is a run of continuation
bytes. -/
theorem encodeChar_takeRight_cont {c m : Nat} (hm : m < (encodeChar c).length) :
    ∀ b ∈ takeRight m (encodeChar c), 0x80 ≤ b ∧ b ≤ 0xBF := by
  intro b hb
  unfold takeRight at hb
  exact encodeChar_drop_one_cont c b (List.drop_subset_drop_left _ (by omega) hb)

/-- Structure of a decoded right-slice of an encoding: at most three leading
replacement characters followed by a scalar-value tail whose encoding makes
up the rest of the slice. -/
theorem decode_takeRight (l : List Nat) (n : Nat) : (∀ c ∈ l, ValidScalar c) →
    ∃ (j : Nat) (l₂ : List Nat),
      utf8Decode (takeRight n (utf8Encode l)) = List.replicate j 0xFFFD ++ l₂ ∧
      (∀ c ∈ l₂, ValidScalar c) ∧ j ≤ 3 ∧
      (takeRight n (utf8Encode l)).length = j + (utf8Encode l₂).length := by
  induction l with
  | nil =>
    intro _
    refine ⟨0, [], by simp [utf8Encode, takeRight, utf8Decode, utf8DecodeGo], by simp,
      by omega, by simp [utf8Encode, takeRight]⟩
  | cons c rest ih =>
    intro hv
    rw [utf8Encode_cons]
    by_cases hsmall : n ≤ (utf8Encode rest).length
    · rw [takeRight_append_small hsmall]
      exact ih (fun x hx => hv x (by simp [hx]))
    · rw [takeRight_append_large (by omega)]
      by_cases hfull : (encodeChar c).length ≤ n - (utf8Encode rest).length
      · rw [takeRight_all hfull]
        refine ⟨0, c :: rest, ?_, hv, by omega, ?_⟩
        · rw [show encodeChar c ++ utf8Encode rest = utf8Encode (c :: rest) from
            (utf8Encode_cons c rest).symm]
          rw [utf8Decode_encode _ hv]
          simp
        · simp [utf8Encode_cons]
      · have hmlt : n - (utf8Encode rest).length < (encodeChar c).length := by omega
        have hcont := encodeChar_takeRight_cont hmlt
        have hlen4 := encodeChar_length_le c
        refine ⟨n - (utf8Encode rest).length, rest, ?_,
          fun x hx => hv x (by simp [hx]), by omega, ?_⟩
        · show utf8DecodeGo .ground _ = _
          rw [decode_contRun hcont _]
          congr 1
          · rw [takeRight_length]
            congr 1
            omega
          · exact utf8Decode_encode rest (fun x hx => hv x (by simp [hx]))
        · rw [List.length_append, takeRight_length]
          have := utf8Decode_encode rest (fun x hx => hv x (by simp [hx]))
          omega

theorem trimCp_subset (l : List Nat) : trimCp l ⊆ l := by
  intro x hx
  unfold trimCp at hx
  rw [List.mem_reverse] at hx
  have h1 := List.dropWhile_subset wsCp hx
  rw [List.mem_reverse] at h1
  exact List.dropWhile_subset wsCp h1

theorem trimCp_replicate {n c : Nat} (h : wsCp c = false) :
    trimCp (List.replicate n c) = List.replicate n c := by
  cases n with
  | zero => rfl
  | succ m =>
    unfold trimCp
    rw [List.replicate_succ, List.dropWhile_cons, h]
    simp only [Bool.false_eq_true, if_false]
    rw [← List.replicate_succ, List.reverse_replicate, List.replicate_succ,
      List.dropWhile_cons, h]
    simp only [Bool.false_eq_true, if_false]
    rw [← List.replicate_succ, List.reverse_replicate]

theorem utf8Encode_replicate_length (n c : Nat) :
    (utf8Encode (List.replicate n c)).length = n * (encodeChar c).length := by
  induction n with
  | zero => simp [utf8Encode]
  | succ m ih =>
    rw [List.replicate_succ, utf8Encode_cons, List.length_append, ih, Nat.succ_mul]
    omega

/-- C9 counterexample: the stored content's own UTF-8 encoding can exceed
20 KiB.  6827 copies of U+4E2D encode to 20481 bytes; the right-slice of
20480 bytes splits the first character, its two stray continuation bytes
decode to two U+FFFD (three bytes each), and the stored content re-encodes
to 20484 bytes. -/
theorem C9_counterexample :
    appendStreamContent [] (List.replicate 6827 0x4E2D) =
      0xFFFD :: 0xFFFD :: List.replicate 6826 0x4E2D ∧
    STREAM_MAX_BYTES <
      (utf8Encode (appendStreamContent [] (List.replicate 6827 0x4E2D))).length := by
  have henc : encodeChar 0x4E2D = [0xE4, 0xB8, 0xAD] := by decide
  have hval : ∀ c ∈ List.replicate 6826 (0x4E2D : Nat), ValidScalar c := by
    intro c hcm
    rw [List.eq_of_mem_replicate hcm]
    decide
  have hlen26 : (utf8Encode (List.replicate 6826 (0x4E2D : Nat))).length = 20478 := by
    rw [utf8Encode_replicate_length, henc]
    rfl
  have hlen27 : (utf8Encode (List.replicate 6827 (0x4E2D : Nat))).length = 20481 := by
    rw [utf8Encode_replicate_length, henc]
    rfl
  have hstep : appendStreamContent [] (List.replicate 6827 0x4E2D) =
      0xFFFD :: 0xFFFD :: List.replicate 6826 0x4E2D := by
    have h1 : appendStreamContent [] (List.replicate 6827 0x4E2D) =
        truncateUtf8Bytes (trimCp (List.replicate 6827 0x4E2D)) STREAM_MAX_BYTES := rfl
    rw [h1, trimCp_replicate (by decide)]
    unfold truncateUtf8Bytes
    rw [if_neg (by rw [hlen27]; decide)]
    rw [show (6827 : Nat) = 6826 + 1 from rfl, List.replicate_succ, utf8Encode_cons]
    rw [takeRight_append_large (by rw [hlen26]; decide)]
    rw [hlen26, henc]
    rw [show (STREAM_MAX_BYTES - 20478 : Nat) = 2 from rfl]
    rw [show takeRight 2 [0xE4, 0xB8, 0xAD] = [0xB8, 0xAD] from rfl]
    show utf8DecodeGo .ground _ = _
    rw [decode_contRun (by decide) _]
    rw [show utf8DecodeGo .ground (utf8Encode (List.replicate 6826 0x4E2D)) =
      utf8Decode (utf8Encode (List.replicate 6826 0x4E2D)) from rfl]
    rw [utf8Decode_encode _ hval]
    rfl
  refine ⟨hstep, ?_⟩
  rw [hstep, utf8Encode_cons, utf8Encode_cons, List.length_append, List.length_append,
    hlen26]
  decide

/-- C9 (amended): when a delivered block's text is appended to a stream's
visible content, the stored content equals the WHATWG decoding of the last
at most 20480 bytes of the UTF-8 encoding of the concatenated (trimmed)
text; every stored code point is a Unicode scalar value (no invalid UTF-8);
and the stored content's own encoding exceeds 20480 bytes by at most 6
bytes (three per replacement character at a split boundary). -/
theorem C9_truncation (current text : List Nat)
    (hc : ∀ c ∈ current, ValidScalar c) (ht : ∀ c ∈ text, ValidScalar c) :
    appendStreamContent current text =
      utf8Decode (takeRight STREAM_MAX_BYTES (utf8Encode
        (if current.isEmpty then trimCp text
          else trimCp (current ++ [10, 10] ++ text)))) ∧
    (∀ c ∈ appendStreamContent current text, ValidScalar c) ∧
    (utf8Encode (appendStreamContent current text)).length ≤ STREAM_MAX_BYTES + 6 := by
  have hvnt : ∀ c ∈ (if current.isEmpty then trimCp text
      else trimCp (current ++ [10, 10] ++ text)), ValidScalar c := by
    intro c hcmem
    split at hcmem
    · exact ht c (trimCp_subset _ hcmem)
    · have hmem := trimCp_subset _ hcmem
      rcases List.mem_append.1 hmem with h1 | h1
      · rcases List.mem_append.1 h1 with h2 | h2
        · exact hc c h2
        · have : c = 10 := by simpa using h2
          rw [this]
          decide
      · exact ht c h1
  have happ : appendStreamContent current text =
      truncateUtf8Bytes (if current.isEmpty then trimCp text
        else trimCp (current ++ [10, 10] ++ text)) STREAM_MAX_BYTES := rfl
  rw [happ]
  set nt := if current.isEmpty then trimCp text
    else trimCp (current ++ [10, 10] ++ text) with hnt
  by_cases hfit : (utf8Encode nt).length ≤ STREAM_MAX_BYTES
  · have htr : truncateUtf8Bytes nt STREAM_MAX_BYTES = nt := by
      unfold truncateUtf8Bytes
      rw [if_pos hfit]
    rw [htr]
    refine ⟨?_, hvnt, by omega⟩
    rw [takeRight_all hfit, utf8Decode_encode nt hvnt]
  · have htr : truncateUtf8Bytes nt STREAM_MAX_BYTES =
        utf8Decode (takeRight STREAM_MAX_BYTES (utf8Encode nt)) := by
      unfold truncateUtf8Bytes
      rw [if_neg hfit]
    rw [htr]
    obtain ⟨j, l₂, hdec, hval2, hj, hlen⟩ := decode_takeRight nt STREAM_MAX_BYTES hvnt
    refine ⟨rfl, fun c hcm => utf8Decode_valid _ c hcm, ?_⟩
    rw [hdec, utf8Encode_append, List.length_append, utf8Encode_replicate_length]
    have h3 : (encodeChar 0xFFFD).length = 3 := by decide
    have htl : (takeRight STREAM_MAX_BYTES (utf8Encode nt)).length = STREAM_MAX_BYTES := by
      rw [takeRight_length]
      omega
    rw [h3]
    omega

/-- Witness for C9: appending `"A"` to an empty content stores `"A"`,
which is its own decoded right-slice and fits the limit. -/
theorem C9_witness :
    appendStreamContent [] [0x41] =
      utf8Decode (takeRight STREAM_MAX_BYTES (utf8Encode
        (if ([] : List Nat).isEmpty then trimCp [0x41]
          else trimCp ([] ++ [10, 10] ++ [0x41])))) ∧
    (∀ c ∈ appendStreamContent [] [0x41], ValidScalar c) ∧
    (utf8Encode (appendStreamContent [] [0x41])).length ≤ STREAM_MAX_BYTES + 6 :=
  C9_truncation [] [0x41] (by simp) (by decide)

/-!
## Bot webhook message path (`handleWecomWebhookRequest`, message branch)

The reply is modelled as the stream payload before encryption (the envelope
codec is verified separately); `placeholder` is the account's configured
`streamPlaceholderContent`.
-/

/-- The (pre-encryption) stream reply payload `{ id, finish, content }`. -/
structure StreamReply : Type where
  id : Nat
  finish : Bool
  content : String
deriving DecidableEq, Repr

/-- JS whitespace on characters. -/
def wsChar (c : Char) : Bool := wsCp c.toNat

/-- JS `String.prototype.trim` (drop leading and trailing whitespace). -/
def jsTrim (s : String) : String :=
  String.mk (((s.data.dropWhile wsChar).reverse.dropWhile wsChar).reverse)

/-- `placeholderContent?.trim() || "1"`. -/
def placeholderText : Option String → String
  | none => "1"
  | some p => if jsTrim p = "" then "1" else jsTrim p

/-- `buildStreamPlaceholderReply`. -/
def buildStreamPlaceholderReply (streamId : Nat) (placeholderContent : Option String) :
    StreamReply :=
  { id := streamId, finish := false, content := placeholderText placeholderContent }

/-- `buildStreamTextPlaceholderReply`. -/
def buildStreamTextPlaceholderReply (streamId : Nat) (content : String) : StreamReply :=
  { id := streamId, finish := false,
    content := if jsTrim content = "" then "1" else jsTrim content }

/-- `truncateUtf8Bytes` on a Lean `String` (via the byte model). -/
def truncStr (text : String) (maxBytes : Nat) : String :=
  if text.utf8ByteSize ≤ maxBytes then text
  else String.mk ((utf8Decode (takeRight maxBytes
    (text.toUTF8.toList.map (fun b => b.toNat)))).map Char.ofNat)

/-- `buildStreamReplyFromState` (without the `msg_item` image list, which no
verified claim depends on). -/
def buildStreamReplyFromState (st : StreamState) : StreamReply :=
  { id := st.streamId, finish := st.finished, content := truncStr st.content STREAM_MAX_BYTES }

/-- The stream-refresh branch of the Bot handler: reply from the stored
state, or — for an unknown stream id — from a synthetic started-and-finished
state with empty content. -/
def handleStreamRefresh (s : Store) (streamId : Nat) : StreamReply :=
  match s.streams streamId with
  | some st => buildStreamReplyFromState st
  | none => buildStreamReplyFromState
      { streamId := streamId, msgid := none, conversationKey := none, batchKey := none,
        started := true, finished := true, content := "" }

/-- `"已收到，已排队处理中..."`. -/
def queuedPlaceholder : String := "已收到，已排队处理中..."

/-- `"已收到，已合并排队处理中..."`. -/
def mergedQueuedPlaceholder : String := "已收到，已合并排队处理中..."

/-- Result of the Bot message path: the reply payload and the new store. -/
structure HandleResult : Type where
  reply : StreamReply
  store : Store

/-- The admission part of the Bot message path (after the dedupe check):
admit into the queue and branch on the admission status; merged messages get
a fresh ack stream (started, not finished, merged placeholder content),
their msg-id is mapped to the ack stream, and the ack stream is registered
against the batch stream. -/
def handleBotMessageAdmit (s : Store) (conversationKey : String) (msgid : Option String)
    (msgContent : String) (placeholder : Option String) : HandleResult :=
  let r := addPendingMessage s conversationKey msgid msgContent
  match r.status with
  | .active_new =>
    { reply := buildStreamPlaceholderReply r.streamId placeholder, store := r.store }
  | .queued_new =>
    { reply := buildStreamPlaceholderReply r.streamId (some queuedPlaceholder), store := r.store }
  | _ =>
    let c := createStream r.store msgid none none
    let s2 := updateStream c.2 c.1 (fun st =>
      { st with finished := false, started := true, content := mergedQueuedPlaceholder })
    let s3 :=
      match msgidVal msgid with
      | some m => setStreamIdForMsgId s2 m c.1
      | none => s2
    let s4 := addAckStreamForBatch s3 r.streamId c.1
    { reply := buildStreamTextPlaceholderReply c.1 mergedQueuedPlaceholder, store := s4 }

/-- The Bot message path: dedupe by msg-id (returning the existing stream's
placeholder without re-admitting), else admit. -/
def handleBotMessage (s : Store) (conversationKey : String) (msgid : Option String)
    (msgContent : String) (placeholder : Option String) : HandleResult :=
  match msgidVal msgid with
  | some m =>
    match getStreamByMsgId s m with
    | some existingStreamId =>
      { reply := buildStreamPlaceholderReply existingStreamId placeholder, store := s }
    | none => handleBotMessageAdmit s conversationKey msgid msgContent placeholder
  | none => handleBotMessageAdmit s conversationKey msgid msgContent placeholder

/-- C5: a Bot POST whose msgid is already mapped returns the placeholder for
the previously allocated stream id and leaves the store untouched — no new
batch, stream or timer, and no second agent invocation for that msg-id. -/
theorem C5_duplicate_msgid_returns_existing_stream
    {s : Store} {msgid : Option String} {m : String} {ex : Nat}
    (hm : msgidVal msgid = some m) (hex : s.msgidToStreamId m = some ex)
    (k : String) (content : String) (ph : Option String) :
    handleBotMessage s k msgid content ph =
      ⟨⟨ex, false, placeholderText ph⟩, s⟩ := by
  unfold handleBotMessage getStreamByMsgId
  rw [hm]
  dsimp only
  rw [hex]
  rfl

/-- Witness for C5: a repeated `m1` after an initial message returns stream
id 0 and the untouched store. -/
theorem C5_witness :
    handleBotMessage (run [Op.add "a" (some "m1") "x"]) "a" (some "m1") "y" none =
      ⟨⟨0, false, "1"⟩, run [Op.add "a" (some "m1") "x"]⟩ := by
  have happ := @C5_duplicate_msgid_returns_existing_stream
    (run [Op.add "a" (some "m1") "x"]) (some "m1") "m1" 0
    (by decide) (by decide) "a" "y" none
  exact happ

/-- C10: a stream-refresh poll for a stream id unknown to the store does not
fail: the handler replies with a finished stream payload for that id with
empty content, so a polling client terminates. -/
theorem C10_unknown_stream_refresh_finishes
    {s : Store} {sid : Nat} (h : s.streams sid = none) :
    handleStreamRefresh s sid = ⟨sid, true, ""⟩ := by
  unfold handleStreamRefresh
  rw [h]
  rfl

/-- Witness for C10: polling stream 5 on an empty store yields a finished
empty payload. -/
theorem C10_witness : handleStreamRefresh Store.init 5 = ⟨5, true, ""⟩ :=
  C10_unknown_stream_refresh_finishes rfl


/-- A truthy msgid is a nonempty string. -/
theorem msgidVal_some_ne_empty {msgid : Option String} {m : String}
    (hm : msgidVal msgid = some m) : m ≠ "" := by
  unfold msgidVal at hm
  rcases msgid with _ | m0
  · exact Option.noConfusion hm
  · dsimp only at hm
    by_cases he : m0 = ""
    · rw [if_pos he] at hm
      exact Option.noConfusion hm
    · rw [if_neg he] at hm
      injection hm with hm
      rw [← hm]
      exact he

/-- In the two merged branches `addPendingMessage` returns an existing
batch's pending entry and only updates that entry. -/
theorem add_merged_eq {s : Store} {k : String} {msgid : Option String} {content : String}
    (hstatus : (addPendingMessage s k msgid content).status = AddStatus.active_merged ∨
      (addPendingMessage s k msgid content).status = AddStatus.queued_merged) :
    ∃ bk p st0, s.pendingInbounds bk = some p ∧
      addPendingMessage s k msgid content = mergedResult s bk p st0 msgid content := by
  revert hstatus
  unfold addPendingMessage
  split
  · intro hstatus
    rcases hstatus with h1 | h1 <;>
      exact AddStatus.noConfusion (show AddStatus.active_new = _ from h1)
  · next st hconv =>
    dsimp only
    split
    · next r hr =>
      split at hr
      · next ap hap =>
        split at hr
        · exact absurd hr (by simp)
        · split at hr
          · exact absurd hr (by simp)
          · injection hr with hr
            intro _
            exact ⟨st.activeBatchKey, ap, .active_merged, hap, hr.symm⟩
      · exact absurd hr (by simp)
    · next hr =>
      split
      · next r hr2 =>
        split at hr2
        · next q hq =>
          split at hr2
          · next ex hex =>
            injection hr2 with hr2
            intro _
            exact ⟨q, ex, .queued_merged, hex, hr2.symm⟩
          · exact absurd hr2 (by simp)
        · exact absurd hr2 (by simp)
      · intro hstatus
        rcases hstatus with h1 | h1 <;>
          exact AddStatus.noConfusion (show AddStatus.queued_new = _ from h1)

theorem C3_merged_message_gets_ack_stream
    {s : Store} (h : WF s) {k : String} {msgid : Option String} {m : String}
    (hm : msgidVal msgid = some m)
    (hnew : s.msgidToStreamId m = none)
    (content : String) (ph : Option String)
    (hstatus : (addPendingMessage s k msgid content).status = AddStatus.active_merged ∨
      (addPendingMessage s k msgid content).status = AddStatus.queued_merged) :
    (addPendingMessage s k msgid content).store.msgidToStreamId = s.msgidToStreamId ∧
    (handleBotMessage s k msgid content ph).reply.id ≠ (addPendingMessage s k msgid content).streamId ∧
    (handleBotMessage s k msgid content ph).reply.finish = false ∧
    (handleBotMessage s k msgid content ph).reply.content = mergedQueuedPlaceholder ∧
    (handleBotMessage s k msgid content ph).store.msgidToStreamId m =
      some (handleBotMessage s k msgid content ph).reply.id ∧
    (∃ ss, (handleBotMessage s k msgid content ph).store.streams
        (handleBotMessage s k msgid content ph).reply.id = some ss ∧
      ss.started = true ∧ ss.finished = false ∧ ss.content = mergedQueuedPlaceholder) ∧
    (handleBotMessage s k msgid content ph).reply.id ∈
      ((handleBotMessage s k msgid content ph).store.ackStreams
        (addPendingMessage s k msgid content).streamId).getD [] := by
  rcases add_merged_eq hstatus with ⟨bk, p, st0, hp, heq⟩
  have hlt : p.streamId < s.nextId := h.pendId bk p hp
  have hmne : m ≠ "" := msgidVal_some_ne_empty hm
  have hst0 : st0 = AddStatus.active_merged ∨ st0 = AddStatus.queued_merged := by
    rw [heq] at hstatus
    exact hstatus
  clear hstatus
  have hhandle : handleBotMessage s k msgid content ph =
      handleBotMessageAdmit s k msgid content ph := by
    unfold handleBotMessage getStreamByMsgId
    rw [hm]
    dsimp only
    rw [hnew]
  rw [hhandle, heq]
  unfold handleBotMessageAdmit
  rw [heq]
  rcases hst0 with h0 | h0
  · subst h0
    dsimp only [mergedResult, createStream, updateStream, setStreamIdForMsgId,
      addAckStreamForBatch, buildStreamTextPlaceholderReply]
    rw [hm]
    dsimp only
    rw [if_neg hmne]
    simp only [MapF.set_same]
    exact ⟨by trivial, by omega, by trivial, by decide, by trivial,
      ⟨_, rfl, rfl, rfl, rfl⟩, by simp⟩
  · subst h0
    dsimp only [mergedResult, createStream, updateStream, setStreamIdForMsgId,
      addAckStreamForBatch, buildStreamTextPlaceholderReply]
    rw [hm]
    dsimp only
    rw [if_neg hmne]
    simp only [MapF.set_same]
    exact ⟨by trivial, by omega, by trivial, by decide, by trivial,
      ⟨_, rfl, rfl, rfl, rfl⟩, by simp⟩

/-- Witness for C3 on a concrete run: message `m3` merges into the promoted
unstarted batch; its msg-id is mapped to the fresh ack stream the handler
returns, not to the batch stream. -/
theorem C3_witness :
    (handleBotMessage (run [Op.add "a" (some "m1") "one", Op.fire (BatchKey.initial "a"),
        Op.start 0, Op.add "a" (some "m2") "two", Op.finish 0])
      "a" (some "m3") "three" none).store.msgidToStreamId "m3" =
    some ((handleBotMessage (run [Op.add "a" (some "m1") "one", Op.fire (BatchKey.initial "a"),
        Op.start 0, Op.add "a" (some "m2") "two", Op.finish 0])
      "a" (some "m3") "three" none).reply.id) := by
  have happ := @C3_merged_message_gets_ack_stream
    (run [Op.add "a" (some "m1") "one", Op.fire (BatchKey.initial "a"),
      Op.start 0, Op.add "a" (some "m2") "two", Op.finish 0])
    (wf_run [Op.add "a" (some "m1") "one", Op.fire (BatchKey.initial "a"),
      Op.start 0, Op.add "a" (some "m2") "two", Op.finish 0])
    "a" (some "m3") "m3" rfl (by decide) "three" none
    (Or.inl (by decide))
  exact happ.2.2.2.2.1

/-!
## Envelope codec (crypto module)

Byte strings are lists of `Nat`s.  AES-256-CBC under a valid key (a 32-byte
base64-decoded `encodingAESKey`, IV its first 16 bytes) is an invertible
length-preserving map on byte strings; it enters the model as an abstract
`cipher`/`decipher` pair with `decipher (cipher x) = x`, while the framing
and padding logic is translated literally.
-/

/-- WeCom pads to 32-byte blocks (not AES's 16). -/
def WECOM_PKCS7_BLOCK_SIZE : Nat := 32

/-- `pkcs7Pad`: always pads, a whole extra block when already aligned. -/
def pkcs7Pad (buf : List Nat) (blockSize : Nat) : List Nat :=
  let m := buf.length % blockSize
  let pad := if m = 0 then blockSize else blockSize - m
  buf ++ List.replicate pad pad

/-- `pkcs7Unpad`: validate the pad count and every padding byte. -/
def pkcs7Unpad (buf : List Nat) (blockSize : Nat) : Except String (List Nat) :=
  if buf.length = 0 then .error "invalid pkcs7 payload"
  else
    let pad := buf.getD (buf.length - 1) 0
    if pad < 1 ∨ pad > blockSize then .error "invalid pkcs7 padding"
    else if pad > buf.length then .error "invalid pkcs7 payload"
    else if (takeRight pad buf).all (fun x => x == pad) then .ok (buf.take (buf.length - pad))
    else .error "invalid pkcs7 padding"

/-- `Buffer.readUInt32BE`. -/
def readUInt32BE (l : List Nat) (off : Nat) : Nat :=
  l.getD off 0 * 16777216 + l.getD (off + 1) 0 * 65536 + l.getD (off + 2) 0 * 256 +
    l.getD (off + 3) 0

/-- `Buffer.writeUInt32BE`. -/
def writeUInt32BE (n : Nat) : List Nat :=
  [n / 16777216 % 256, n / 65536 % 256, n / 256 % 256, n % 256]

/-- `encryptWecomPlaintext`: frame `[16 random][4-byte BE length][msg][receiveId]`, pad, encrypt. -/
def encryptWecomPlaintext (cipher : List Nat → List Nat)
    (random16 msg receiveId : List Nat) : List Nat :=
  cipher (pkcs7Pad (random16 ++ writeUInt32BE msg.length ++ msg ++ receiveId)
    WECOM_PKCS7_BLOCK_SIZE)

/-- `decryptWecomEncrypted`: decrypt, unpad, check the frame and the receiver id. -/
def decryptWecomEncrypted (decipher : List Nat → List Nat)
    (receiveId : List Nat) (encrypt : List Nat) : Except String (List Nat) :=
  match pkcs7Unpad (decipher encrypt) WECOM_PKCS7_BLOCK_SIZE with
  | .error e => .error e
  | .ok decrypted =>
    if decrypted.length < 20 then .error "invalid decrypted payload"
    else
      let msgLen := readUInt32BE decrypted 16
      if 20 + msgLen > decrypted.length then .error "invalid decrypted msg length"
      else
        let msg := (decrypted.drop 20).take msgLen
        if receiveId ≠ [] ∧ decrypted.drop (20 + msgLen) ≠ receiveId then
          .error "receiveId mismatch"
        else .ok msg

/-- Padding round-trip at block size 32. -/
theorem pkcs7_roundtrip (b : List Nat) :
    pkcs7Unpad (pkcs7Pad b WECOM_PKCS7_BLOCK_SIZE) WECOM_PKCS7_BLOCK_SIZE = .ok b := by
  unfold pkcs7Pad pkcs7Unpad WECOM_PKCS7_BLOCK_SIZE
  dsimp only
  set m := b.length % 32 with hm
  have hmlt : m < 32 := Nat.mod_lt _ (by omega)
  set pad := if m = 0 then 32 else 32 - m with hpad
  have hpad1 : 1 ≤ pad ∧ pad ≤ 32 := by
    rw [hpad]
    split <;> omega
  have hlen : (b ++ List.replicate pad pad).length = b.length + pad := by
    simp
  have hlast : (b ++ List.replicate pad pad).getD ((b ++ List.replicate pad pad).length - 1) 0 = pad := by
    rw [hlen]
    rw [List.getD_append_right _ _ _ _ (by omega)]
    have hidx : b.length + pad - 1 - b.length = pad - 1 := by omega
    rw [hidx]
    rw [List.getD_eq_getElem _ _ (by simp; omega)]
    simp
  rw [if_neg (by rw [hlen]; omega)]
  rw [hlast]
  rw [if_neg (by omega)]
  rw [if_neg (by rw [hlen]; omega)]
  rw [if_pos]
  · rw [hlen]
    have : b.length + pad - pad = b.length := by omega
    rw [this, List.take_left]
  · unfold takeRight
    rw [hlen]
    have : b.length + pad - pad = b.length := by omega
    rw [this, List.drop_left]
    simp [List.all_eq_true, List.mem_replicate]


/-!
## Access-token cache (`getAccessToken`)

The sequential model of one call: `now` is the time of the cache check,
`fetch` the outcome of the token endpoint call, `fetchDoneAt` the time its
JSON is processed.  The result carries the returned value, the new cache
entry, and whether the endpoint was called.  (The `refreshPromise` join of a
concurrent caller is a scheduling feature outside this sequential model; the
marker's clearing in `finally` is the modelled `refreshInFlight := false` on
every refresh outcome.)
-/

structure TokenResp : Type where
  access_token : Option String
  expires_in : Option Nat
deriving DecidableEq, Repr

structure TokenCache : Type where
  token : String
  expiresAt : Nat
  refreshInFlight : Bool
deriving DecidableEq, Repr

def TOKEN_REFRESH_BUFFER_MS : Nat := 60000

def getAccessToken (c : TokenCache) (now : Nat) (fetch : Except String TokenResp)
    (fetchDoneAt : Nat) : Except String String × TokenCache × Bool :=
  if c.token ≠ "" ∧ c.expiresAt > now + TOKEN_REFRESH_BUFFER_MS then
    (.ok c.token, c, false)
  else
    match fetch with
    | .error e => (.error e, { c with refreshInFlight := false }, true)
    | .ok resp =>
      match resp.access_token with
      | none => (.error "gettoken failed", { c with refreshInFlight := false }, true)
      | some t =>
        if t = "" then (.error "gettoken failed", { c with refreshInFlight := false }, true)
        else
          (.ok t,
           { token := t, expiresAt := fetchDoneAt + (resp.expires_in.getD 7200) * 1000,
             refreshInFlight := false },
           true)

/-- C7: a cached token whose expiry lies more than 60 s in the future is
returned without calling the endpoint; otherwise the endpoint is called —
failing when the response lacks an access_token — and on success the expiry
becomes the response time plus `expires_in` seconds (7200 when absent); the
in-flight marker is cleared on every refresh outcome. -/
theorem C7_access_token_cache (c : TokenCache) (now fetchDoneAt : Nat) (fetch : Except String TokenResp) :
    (c.token ≠ "" → c.expiresAt > now + TOKEN_REFRESH_BUFFER_MS →
      getAccessToken c now fetch fetchDoneAt = (.ok c.token, c, false)) ∧
    (¬(c.token ≠ "" ∧ c.expiresAt > now + TOKEN_REFRESH_BUFFER_MS) →
      (getAccessToken c now fetch fetchDoneAt).2.2 = true ∧
      (getAccessToken c now fetch fetchDoneAt).2.1.refreshInFlight = false ∧
      (∀ resp, fetch = .ok resp → resp.access_token = none →
        ∃ e, (getAccessToken c now fetch fetchDoneAt).1 = .error e) ∧
      (∀ resp t, fetch = .ok resp → resp.access_token = some t → t ≠ "" →
        (getAccessToken c now fetch fetchDoneAt).1 = .ok t ∧
        (getAccessToken c now fetch fetchDoneAt).2.1.token = t ∧
        (getAccessToken c now fetch fetchDoneAt).2.1.expiresAt =
          fetchDoneAt + (resp.expires_in.getD 7200) * 1000) ∧
      (∀ e, fetch = .error e → (getAccessToken c now fetch fetchDoneAt).1 = .error e)) := by
  constructor
  · intro h1 h2
    unfold getAccessToken
    rw [if_pos ⟨h1, h2⟩]
  · intro hnot
    unfold getAccessToken
    rw [if_neg hnot]
    rcases fetch with e | resp
    · exact ⟨rfl, rfl, fun _ h => Except.noConfusion h, fun _ _ h => Except.noConfusion h,
        fun e2 he => by injection he with he; rw [he]⟩
    · dsimp only
      rcases hat : resp.access_token with _ | t
      · dsimp only
        refine ⟨rfl, rfl, ?_, ?_, ?_⟩
        · intro _ _ _
          exact ⟨"gettoken failed", rfl⟩
        · intro resp2 t2 hr2 hat2 _
          injection hr2 with hr2
          rw [← hr2] at hat2
          rw [hat] at hat2
          exact Option.noConfusion hat2
        · intro _ he
          exact Except.noConfusion he
      · dsimp only
        by_cases hte : t = ""
        · rw [if_pos hte]
          refine ⟨rfl, rfl, ?_, ?_, ?_⟩
          · intro _ _ _
            exact ⟨"gettoken failed", rfl⟩
          · intro resp2 t2 hr2 hat2 ht2
            injection hr2 with hr2
            rw [← hr2] at hat2
            rw [hat] at hat2
            injection hat2 with hat2
            exact absurd (hat2.symm.trans hte) ht2
          · intro _ he
            exact Except.noConfusion he
        · rw [if_neg hte]
          refine ⟨rfl, rfl, ?_, ?_, ?_⟩
          · intro resp2 hr2 hat2
            injection hr2 with hr2
            rw [← hr2] at hat2
            rw [hat] at hat2
            exact Option.noConfusion hat2
          · intro resp2 t2 hr2 hat2 ht2
            injection hr2 with hr2
            rw [← hr2] at hat2
            rw [hat] at hat2
            injection hat2 with hat2
            rw [← hr2, hat2]
            exact ⟨rfl, rfl, rfl⟩
          · intro _ he
            exact Except.noConfusion he

/-- Witness for C7: a fresh token is returned from cache; an expired cache
refreshes with the default TTL. -/
theorem C7_witness :
    getAccessToken ⟨"tok", 1000000, false⟩ 1000 (Except.ok ⟨some "t2", none⟩) 2000 =
      (Except.ok "tok", ⟨"tok", 1000000, false⟩, false) ∧
    (getAccessToken ⟨"", 0, false⟩ 1000 (Except.ok ⟨some "t2", none⟩) 2000).2.1.expiresAt =
      2000 + 7200 * 1000 := by
  constructor
  · exact (C7_access_token_cache ⟨"tok", 1000000, false⟩ 1000 2000
      (Except.ok ⟨some "t2", none⟩)).1 (by decide) (by decide)
  · have happ := (C7_access_token_cache ⟨"", 0, false⟩ 1000 2000
      (Except.ok ⟨some "t2", none⟩)).2 (by decide)
    exact (happ.2.2.2.1 ⟨some "t2", none⟩ "t2" rfl rfl (by decide)).2.2

/-!
## Target resolver (`resolveWecomTarget`)

Strings are handled as character lists (`trimL` is JS `trim`, `hasPre` the
case-insensitive prefix test of the `/^…/i` regexes, `stripNs` the namespace
alternation in its source order).
-/

structure WecomTarget : Type where
  touser : Option String := none
  toparty : Option String := none
  totag : Option String := none
  chatid : Option String := none
deriving DecidableEq, Repr

def asciiLower (c : Char) : Char :=
  if 65 ≤ c.toNat ∧ c.toNat ≤ 90 then Char.ofNat (c.toNat + 32) else c

def lowerL (l : List Char) : List Char := l.map asciiLower

def hasPre (l : List Char) (p : String) : Bool :=
  (lowerL p.data).isPrefixOf (lowerL l)

def trimL (l : List Char) : List Char :=
  ((l.dropWhile wsChar).reverse.dropWhile wsChar).reverse

def stripNs (l : List Char) : List Char :=
  if hasPre l "wecom-agent:" then l.drop 12
  else if hasPre l "wecom:" then l.drop 6
  else if hasPre l "wechatwork:" then l.drop 11
  else if hasPre l "wework:" then l.drop 7
  else if hasPre l "qywx:" then l.drop 5
  else l

def resolveWecomTarget (raw : String) : Option WecomTarget :=
  if trimL raw.data = [] then none
  else
    let clean := stripNs (trimL raw.data)
    if hasPre clean "party:" then some { toparty := some (String.mk (trimL (clean.drop 6))) }
    else if hasPre clean "dept:" then some { toparty := some (String.mk (trimL (clean.drop 5))) }
    else if hasPre clean "tag:" then some { totag := some (String.mk (trimL (clean.drop 4))) }
    else if hasPre clean "group:" then some { chatid := some (String.mk (trimL (clean.drop 6))) }
    else if hasPre clean "chat:" then some { chatid := some (String.mk (trimL (clean.drop 5))) }
    else if hasPre clean "user:" then some { touser := some (String.mk (trimL (clean.drop 5))) }
    else if hasPre clean "wr" || hasPre clean "wc" then some { chatid := some (String.mk clean) }
    else if clean ≠ [] ∧ clean.all Char.isDigit then some { toparty := some (String.mk clean) }
    else some { touser := some (String.mk clean) }

def setCount (t : WecomTarget) : Nat :=
  (if t.touser.isSome then 1 else 0) + (if t.toparty.isSome then 1 else 0) +
  (if t.totag.isSome then 1 else 0) + (if t.chatid.isSome then 1 else 0)

/-- C8 counterexample: `" "` is a non-empty string, yet `resolveWecomTarget`
returns no object at all (the source returns `undefined` for
whitespace-only input), so no field is set. -/
theorem C8_counterexample :
    (" " : String) ≠ "" ∧ resolveWecomTarget " " = none := by
  constructor
  · decide
  · rfl

/-- C8 (amended): for every input whose *trimmed* form is non-empty,
`resolveWecomTarget` returns an object with exactly one of
touser/toparty/totag/chatid set, chosen by the namespace strip, the
case-insensitive explicit prefixes in their source order, then the
`wr`/`wc`, all-digits and default-user heuristics. -/
theorem C8_target_resolver (raw : String) (h : trimL raw.data ≠ []) :
    ∃ t, resolveWecomTarget raw = some t ∧ setCount t = 1 ∧
      (hasPre (stripNs (trimL raw.data)) "party:" = true →
        t.toparty = some (String.mk (trimL ((stripNs (trimL raw.data)).drop 6)))) ∧
      (hasPre (stripNs (trimL raw.data)) "party:" = false →
        hasPre (stripNs (trimL raw.data)) "dept:" = true →
        t.toparty = some (String.mk (trimL ((stripNs (trimL raw.data)).drop 5)))) ∧
      (hasPre (stripNs (trimL raw.data)) "party:" = false →
        hasPre (stripNs (trimL raw.data)) "dept:" = false →
        hasPre (stripNs (trimL raw.data)) "tag:" = true →
        t.totag = some (String.mk (trimL ((stripNs (trimL raw.data)).drop 4)))) ∧
      (hasPre (stripNs (trimL raw.data)) "party:" = false →
        hasPre (stripNs (trimL raw.data)) "dept:" = false →
        hasPre (stripNs (trimL raw.data)) "tag:" = false →
        hasPre (stripNs (trimL raw.data)) "group:" = true →
        t.chatid = some (String.mk (trimL ((stripNs (trimL raw.data)).drop 6)))) ∧
      (hasPre (stripNs (trimL raw.data)) "party:" = false →
        hasPre (stripNs (trimL raw.data)) "dept:" = false →
        hasPre (stripNs (trimL raw.data)) "tag:" = false →
        hasPre (stripNs (trimL raw.data)) "group:" = false →
        hasPre (stripNs (trimL raw.data)) "chat:" = true →
        t.chatid = some (String.mk (trimL ((stripNs (trimL raw.data)).drop 5)))) ∧
      (hasPre (stripNs (trimL raw.data)) "party:" = false →
        hasPre (stripNs (trimL raw.data)) "dept:" = false →
        hasPre (stripNs (trimL raw.data)) "tag:" = false →
        hasPre (stripNs (trimL raw.data)) "group:" = false →
        hasPre (stripNs (trimL raw.data)) "chat:" = false →
        hasPre (stripNs (trimL raw.data)) "user:" = true →
        t.touser = some (String.mk (trimL ((stripNs (trimL raw.data)).drop 5)))) ∧
      (hasPre (stripNs (trimL raw.data)) "party:" = false →
        hasPre (stripNs (trimL raw.data)) "dept:" = false →
        hasPre (stripNs (trimL raw.data)) "tag:" = false →
        hasPre (stripNs (trimL raw.data)) "group:" = false →
        hasPre (stripNs (trimL raw.data)) "chat:" = false →
        hasPre (stripNs (trimL raw.data)) "user:" = false →
        (hasPre (stripNs (trimL raw.data)) "wr" || hasPre (stripNs (trimL raw.data)) "wc") = true →
        t.chatid = some (String.mk (stripNs (trimL raw.data)))) ∧
      (hasPre (stripNs (trimL raw.data)) "party:" = false →
        hasPre (stripNs (trimL raw.data)) "dept:" = false →
        hasPre (stripNs (trimL raw.data)) "tag:" = false →
        hasPre (stripNs (trimL raw.data)) "group:" = false →
        hasPre (stripNs (trimL raw.data)) "chat:" = false →
        hasPre (stripNs (trimL raw.data)) "user:" = false →
        (hasPre (stripNs (trimL raw.data)) "wr" || hasPre (stripNs (trimL raw.data)) "wc") = false →
        (stripNs (trimL raw.data)) ≠ [] →
        (stripNs (trimL raw.data)).all Char.isDigit = true →
        t.toparty = some (String.mk (stripNs (trimL raw.data)))) ∧
      (hasPre (stripNs (trimL raw.data)) "party:" = false →
        hasPre (stripNs (trimL raw.data)) "dept:" = false →
        hasPre (stripNs (trimL raw.data)) "tag:" = false →
        hasPre (stripNs (trimL raw.data)) "group:" = false →
        hasPre (stripNs (trimL raw.data)) "chat:" = false →
        hasPre (stripNs (trimL raw.data)) "user:" = false →
        (hasPre (stripNs (trimL raw.data)) "wr" || hasPre (stripNs (trimL raw.data)) "wc") = false →
        ¬((stripNs (trimL raw.data)) ≠ [] ∧ (stripNs (trimL raw.data)).all Char.isDigit = true) →
        t.touser = some (String.mk (stripNs (trimL raw.data)))) := by
  unfold resolveWecomTarget
  rw [if_neg h]
  dsimp only
  repeat' split
  all_goals refine ⟨_, rfl, rfl, ?_, ?_, ?_, ?_, ?_, ?_, ?_, ?_, ?_⟩
  all_goals intros
  all_goals simp_all

/-- Witness for C8: `party:1` resolves to exactly the department target. -/
theorem C8_witness :
    resolveWecomTarget "party:1" = some ⟨none, some "1", none, none⟩ ∧
    setCount ⟨none, some "1", none, none⟩ = 1 := by
  rcases C8_target_resolver "party:1" (by decide) with ⟨t, h1, h2, _⟩
  have hres : resolveWecomTarget "party:1" = some ⟨none, some "1", none, none⟩ := by decide
  rw [hres] at h1
  injection h1 with h1
  rw [← h1] at h2
  exact ⟨hres, h2⟩


/-- C6: for every plaintext and receiver id, and every valid key (entering
through the inverse cipher pair), decrypting the encryption returns the
plaintext — including at the boundary where the framed length is a multiple
of 32 and a whole extra padding block is added and removed. -/
theorem C6_envelope_roundtrip (cipher decipher : List Nat → List Nat)
    (hinv : ∀ x, decipher (cipher x) = x)
    (random16 msg receiveId : List Nat)
    (hr : random16.length = 16) (hm : msg.length < 4294967296) :
    decryptWecomEncrypted decipher receiveId
      (encryptWecomPlaintext cipher random16 msg receiveId) = .ok msg := by
  unfold encryptWecomPlaintext decryptWecomEncrypted
  rw [hinv, pkcs7_roundtrip]
  have hbe : (writeUInt32BE msg.length).length = 4 := by
    unfold writeUInt32BE
    rfl
  have hassoc : random16 ++ writeUInt32BE msg.length ++ msg ++ receiveId =
      (random16 ++ writeUInt32BE msg.length) ++ (msg ++ receiveId) := by
    rw [List.append_assoc]
  have h20 : (random16 ++ writeUInt32BE msg.length).length = 20 := by
    simp [hbe, hr]
  have hlenraw : (random16 ++ writeUInt32BE msg.length ++ msg ++ receiveId).length =
      20 + msg.length + receiveId.length := by
    rw [hassoc, List.length_append, h20, List.length_append]
    omega
  have hread : readUInt32BE (random16 ++ writeUInt32BE msg.length ++ msg ++ receiveId) 16 =
      msg.length := by
    unfold readUInt32BE
    have hget : ∀ i, i < 4 →
        (random16 ++ writeUInt32BE msg.length ++ msg ++ receiveId).getD (16 + i) 0 =
          (writeUInt32BE msg.length).getD i 0 := by
      intro i hi
      rw [hassoc]
      rw [List.getD_append _ _ _ _ (by rw [h20]; omega)]
      rw [List.getD_append_right _ _ _ _ (by rw [hr]; omega)]
      congr 1
      omega
    have g0 := hget 0 (by omega)
    have g1 := hget 1 (by omega)
    have g2 := hget 2 (by omega)
    have g3 := hget 3 (by omega)
    norm_num at g0 g1 g2 g3 ⊢
    rw [g0, g1, g2, g3]
    unfold writeUInt32BE
    simp only [List.getElem?_cons_zero, List.getElem?_cons_succ, Option.getD_some]
    omega
  have hdrop20 : (random16 ++ writeUInt32BE msg.length ++ msg ++ receiveId).drop 20 =
      msg ++ receiveId := by
    rw [hassoc, ← h20, List.drop_left]
  dsimp only
  rw [hread]
  rw [if_neg (by omega)]
  rw [if_neg (by rw [hlenraw]; omega)]
  rw [hdrop20]
  rw [List.take_left]
  rw [if_neg ?hc]
  case hc =>
    intro hcon
    apply hcon.2
    have : ((random16 ++ writeUInt32BE msg.length ++ msg ++ receiveId).drop 20).drop msg.length =
        receiveId := by
      rw [hdrop20, List.drop_left]
    rw [List.drop_drop] at this
    exact this

/-- Witness for C6 at the padding boundary: `20 + |msg| + |receiver| = 32`
(a 12-byte message, empty receiver id), so a full extra 32-byte pad block is
added and removed. -/
theorem C6_witness :
    decryptWecomEncrypted (fun x => x) []
      (encryptWecomPlaintext (fun x => x) (List.replicate 16 0) (List.replicate 12 65) []) =
      Except.ok (List.replicate 12 65) :=
  C6_envelope_roundtrip (fun x => x) (fun x => x) (fun _ => rfl)
    (List.replicate 16 0) (List.replicate 12 65) [] (by decide) (by decide)



end Wecom
